import Mathlib

/-!
Shallow embedding of the analytics core of the kalshi_sports repository.

The embedding follows the TypeScript source:
  * src/lib/kalshi/stats.ts        (StatsEngine, trade-side inference, dirty set)
  * src/lib/kalshi/websocket.ts    (applyOrderbookSnapshot, applyOrderbookDelta)
  * src/lib/kalshi/signals.ts      (SignalsEngine: buildLadder, checkMonotonicity,
                                    isotonicRegression, detectCrossLadderArb,
                                    handleSignalPersistence, cleanPendingSignals,
                                    clearOldSignals)
  * src/app/api/stream/route.ts    (the periodic stats tick)

JavaScript numbers are modelled as exact rationals, timestamps as integers
(milliseconds).  JavaScript Map/Set objects are modelled as association lists
or as option-valued functions, as noted at each definition.
-/

namespace KalshiSports

/-! ## Configuration constants (lib/kalshi/ladderConfig.ts, LADDER_CONFIG) -/

def MIN_LIQUIDITY_DEPTH : ℚ := 2000
def MIN_LIQUIDITY_VOLUME : ℚ := 5000
def MAX_SPREAD_CENTS : ℚ := 3
def MAX_STALE_MS : ℚ := 5000
def MONO_MIN_CENTS : ℚ := 3
/-- MONO_EPSILON = 0.015 -/
def MONO_EPSILON : ℚ := 3 / 200
def PERSIST_MS : ℤ := 3000
def COOLDOWN_MS : ℤ := 30000

/-! ## Signal persistence (signals.ts lines 122-127, 771-800, 820-827, 882-890)

A pending signal for a single canonical key `type:market_ticker:ladder_key`.
The stored `signal` payload is omitted from the model: the persistence logic
reads none of its fields, it only overwrites it with the newest candidate and
pushes it to the active map on emission.  The active map is modelled by the
list of the emission timestamps (`signal.ts`) of its entries, which is the
only field `clearOldSignals` reads. -/

structure PendingEntry where
  firstSeenTs : ℤ
  lastSeenTs : ℤ
  emittedTs : Option ℤ
  deriving DecidableEq, Repr

/-- Translation of SignalsEngine.handleSignalPersistence for one canonical
key: given the pending entry for the key (none if absent) and the current
time, return the new pending entry together with whether the candidate was
emitted (pushed to the active map) in this call. -/
def handleSignalPersistence (pending : Option PendingEntry) (now : ℤ) :
    Option PendingEntry × Bool :=
  match pending with
  | none => (some { firstSeenTs := now, lastSeenTs := now, emittedTs := none }, false)
  | some p =>
    let persistedDuration := now - p.firstSeenTs
    let cooldownOk : Bool :=
      match p.emittedTs with
      | none => true
      | some e => decide (COOLDOWN_MS ≤ now - e)
    if PERSIST_MS ≤ persistedDuration ∧ cooldownOk = true then
      (some { firstSeenTs := p.firstSeenTs, lastSeenTs := now, emittedTs := some now }, true)
    else
      (some { firstSeenTs := p.firstSeenTs, lastSeenTs := now, emittedTs := p.emittedTs }, false)

/-- Translation of SignalsEngine.cleanPendingSignals for one canonical key:
drop the pending entry if it was not seen in the last 2 seconds. -/
def cleanPendingSignals (pending : Option PendingEntry) (now : ℤ) : Option PendingEntry :=
  match pending with
  | none => none
  | some p => if 2000 < now - p.lastSeenTs then none else some p

/-- Translation of SignalsEngine.clearOldSignals: the active map is modelled
by the list of the `ts` fields of its signals; entries older than `maxAgeMs`
are deleted. -/
def clearOldSignals (active : List ℤ) (now : ℤ) (maxAgeMs : ℤ) : List ℤ :=
  active.filter (fun ts => !(decide (maxAgeMs < now - ts)))

/-! ## Order book state (websocket.ts lines 607-637)

A side of a book (`Map<number, number>` in the source) is modelled as an
option-valued function from price to size; `none` means the key is absent. -/

def SideMap : Type := ℤ → Option ℤ

def emptySideMap : SideMap := fun _ => none

def SideMap.set (m : SideMap) (price size : ℤ) : SideMap :=
  fun q => if q = price then some size else m q

def SideMap.del (m : SideMap) (price : ℤ) : SideMap :=
  fun q => if q = price then none else m q

structure Book where
  yes : SideMap
  no : SideMap

def emptyBook : Book := { yes := emptySideMap, no := emptySideMap }

/-- Translation of the snapshot side-map construction: insert each level with
a strictly positive quantity, in list order. -/
def buildSideMap (levels : List (ℤ × ℤ)) : SideMap :=
  levels.foldl (fun m pv => if 0 < pv.2 then m.set pv.1 pv.2 else m) emptySideMap

/-- Translation of applyOrderbookSnapshot: both side maps are replaced,
keeping only levels with positive size (the previous book is ignored). -/
def applyOrderbookSnapshot (_book : Book) (yes no : List (ℤ × ℤ)) : Book :=
  { yes := buildSideMap yes, no := buildSideMap no }

inductive BookSide where
  | yes
  | no
  deriving DecidableEq, Repr

def Book.get : Book → BookSide → SideMap
  | b, .yes => b.yes
  | b, .no => b.no

/-- Translation of applyOrderbookDelta: `new = prev + delta`; delete the level
when the new size is `≤ 0`, otherwise set it. -/
def applyOrderbookDelta (book : Book) (side : BookSide) (price delta : ℤ) : Book :=
  let sideMap := book.get side
  let currentQty := (sideMap price).getD 0
  let newQty := currentQty + delta
  let newMap := if newQty ≤ 0 then sideMap.del price else sideMap.set price newQty
  match side with
  | .yes => { book with yes := newMap }
  | .no => { book with no := newMap }

inductive BookEvent where
  | snapshot (yes no : List (ℤ × ℤ))
  | delta (side : BookSide) (price delta : ℤ)

def applyBookEvent (book : Book) : BookEvent → Book
  | .snapshot yes no => applyOrderbookSnapshot book yes no
  | .delta side price delta => applyOrderbookDelta book side price delta

/-- A market book starts empty (websocket.ts line 624) and folds the received
snapshot and delta events in order. -/
def applyBookEvents (events : List BookEvent) : Book :=
  events.foldl applyBookEvent emptyBook

/-- Every level present on either side of the book has strictly positive size. -/
def Book.allPositive (b : Book) : Prop :=
  ∀ side price size, b.get side price = some size → 0 < size

/-! ## Trade side inference (stats.ts lines 169-192, onTradeUpdate) -/

inductive TradeSide where
  | buy
  | sell
  | unknown
  deriving DecidableEq, Repr

/-- Model of JavaScript `String.prototype.toLowerCase` (character-wise
lowercasing; the strings compared by the source are plain ASCII). -/
def lowerAscii (s : String) : String := ⟨s.data.map Char.toLower⟩

/-- The fallback branch of the side inference of StatsEngine.onTradeUpdate:
`else if (currentBid !== undefined && currentAsk !== undefined && price > 0)`
classify against the mid of the hints, else leave the side unknown. -/
def inferTradeSideFromMid (price : ℚ) (currentBid currentAsk : Option ℚ) : TradeSide :=
  match currentBid, currentAsk with
  | some b, some a =>
    if 0 < price then
      if (b + a) / 2 ≤ price then .buy else .sell
    else .unknown
  | _, _ => .unknown

/-- Translation of the side-inference chain of StatsEngine.onTradeUpdate.
`taker_side` is the optional string of the message; `some ""` behaves like
`none` because the source guards with JavaScript truthiness
(`if (msg.taker_side)`).  `price` is `msg.yes_price ?? 0`. -/
def inferTradeSide (taker_side : Option String) (price : ℚ)
    (currentBid currentAsk : Option ℚ) : TradeSide :=
  match taker_side with
  | some s =>
    if s ≠ "" then
      if lowerAscii s = "yes" then .buy else .sell
    else
      inferTradeSideFromMid price currentBid currentAsk
  | none => inferTradeSideFromMid price currentBid currentAsk

/-- The trade side that the specification text of claim C9 describes:
buy for taker_side "yes", sell for taker_side "no", otherwise classified
against the mid when both hints are available.  Kept for comparison with
`inferTradeSide`, the translation of the code. -/
def claimedTradeSide (taker_side : Option String) (price : ℚ)
    (currentBid currentAsk : Option ℚ) : TradeSide :=
  if taker_side = some "yes" then .buy
  else if taker_side = some "no" then .sell
  else
    match currentBid, currentAsk with
    | some b, some a => if (b + a) / 2 ≤ price then .buy else .sell
    | _, _ => .unknown

structure TradeRecord where
  ts : ℤ
  price : ℚ
  count : ℚ
  side : TradeSide
  deriving DecidableEq, Repr

/-! ## Stats engine dirty-set tracking (stats.ts lines 97-234)

The per-market buffer keeps the fields the settled claims read: the trade
ring and the three timestamps.  The mid ring buffer and its pruning are not
modelled; no claim mentions them.  Maps are modelled as association lists. -/

structure MarketBuffer where
  trades : List TradeRecord
  lastTickerTs : ℤ
  lastOrderbookTs : ℤ
  lastTradeTs : ℤ
  deriving Repr

def emptyMarketBuffer : MarketBuffer :=
  { trades := [], lastTickerTs := 0, lastOrderbookTs := 0, lastTradeTs := 0 }

structure StatsEngine where
  buffers : List (String × MarketBuffer)
  dirtyMarkets : List String

/-- Model of `Set.add`: insertion-ordered, no duplicates. -/
def addDirty (dirty : List String) (t : String) : List String :=
  if t ∈ dirty then dirty else dirty ++ [t]

/-- Model of getOrCreateBuffer followed by an update `f` of the buffer. -/
def updateBuffer (buffers : List (String × MarketBuffer)) (t : String)
    (f : MarketBuffer → MarketBuffer) : List (String × MarketBuffer) :=
  match buffers.lookup t with
  | some _ => buffers.map (fun kv => if kv.1 = t then (kv.1, f kv.2) else kv)
  | none => buffers ++ [(t, f emptyMarketBuffer)]

/-- Translation of StatsEngine.onTickerUpdate restricted to the claim-relevant
effects: stamp `lastTickerTs` and mark the market dirty.  (The mid ring-buffer
maintenance of the source is not modelled.) -/
def onTickerUpdate (e : StatsEngine) (market_ticker : String) (now : ℤ) : StatsEngine :=
  { buffers := updateBuffer e.buffers market_ticker (fun b => { b with lastTickerTs := now }),
    dirtyMarkets := addDirty e.dirtyMarkets market_ticker }

/-- Translation of StatsEngine.onOrderbookUpdate. -/
def onOrderbookUpdate (e : StatsEngine) (market_ticker : String) (now : ℤ) : StatsEngine :=
  { buffers := updateBuffer e.buffers market_ticker (fun b => { b with lastOrderbookTs := now }),
    dirtyMarkets := addDirty e.dirtyMarkets market_ticker }

/-- Translation of StatsEngine.onTradeUpdate: stamp `lastTradeTs`, append the
trade record with the inferred side, mark the market dirty.  (Ring-buffer
pruning is not modelled.) -/
def onTradeUpdate (e : StatsEngine) (market_ticker : String)
    (yes_price : Option ℚ) (count : Option ℚ) (taker_side : Option String)
    (currentBid currentAsk : Option ℚ) (now : ℤ) : StatsEngine :=
  let price := yes_price.getD 0
  let tradeRecord : TradeRecord :=
    { ts := now, price := price, count := count.getD 1,
      side := inferTradeSide taker_side price currentBid currentAsk }
  { buffers := updateBuffer e.buffers market_ticker
      (fun b => { b with lastTradeTs := now, trades := b.trades ++ [tradeRecord] }),
    dirtyMarkets := addDirty e.dirtyMarkets market_ticker }

/-- The key sets of the connection state maps (`tickersByMarket`,
`orderbookByMarket`); map keys are unique. -/
structure ConnectionState where
  tickersByMarket : List String
  orderbookByMarket : List String

/-- Translation of StatsEngine.computeStats: statistics are recomputed for
exactly the markets of the dirty set, then the dirty set is cleared.  The
returned list is the key set of the computed result map; the per-market
statistic values themselves are modelled separately where a claim needs
them. -/
def computeStats (e : StatsEngine) (_conn : ConnectionState) : List String × StatsEngine :=
  (e.dirtyMarkets, { e with dirtyMarkets := [] })

/-- Translation of StatsEngine.computeAllStats: a full pass over every ticker
key, then over every orderbook key not already computed; the dirty set is
cleared.  The returned list is the key set of the computed result map. -/
def computeAllStats (e : StatsEngine) (conn : ConnectionState) : List String × StatsEngine :=
  (conn.tickersByMarket ++
     conn.orderbookByMarket.filter (fun t => !(decide (t ∈ conn.tickersByMarket))),
   { e with dirtyMarkets := [] })

/-- Translation of the body of `statsBatchTimer` in app/api/stream/route.ts
(lines 200-211): the fast periodic stats tick calls `computeAllStats`. -/
def statsTick (e : StatsEngine) (conn : ConnectionState) : List String × StatsEngine :=
  computeAllStats e conn

/-! ## Isotonic regression (signals.ts lines 710-766, isotonicRegression)

The source runs a Pool Adjacent Violators sweep as a while loop over mutable
`result` and `weights` arrays.  The loop index moves forward, and after a
pooling it is moved backwards while the pooled value creates new violations
to the left.  The loop is modelled by structural recursion with an explicit
iteration bound `fuel` (the loop body is executed at most `fuel` times; when
the bound is reached the current array is returned and the pipeline
continues with the propagation pass).  In exact rational arithmetic the
source loop need not terminate, so no single bound covers every input; all
theorems below therefore hold for every value of `fuel`, hence for any
terminating execution of the source loop. -/

inductive MonotonicDirection where
  | nonincreasing
  | nondecreasing
  deriving DecidableEq, Repr

/-- One pooling step at positions `i`, `i+1`: both entries of `result`
become the weighted average and both entries of `weights` the combined
weight. -/
def pavPool (result weights : List ℚ) (i : ℕ) : List ℚ × List ℚ :=
  let ri := result.getD i 0
  let rj := result.getD (i + 1) 0
  let wi := weights.getD i 0
  let wj := weights.getD (i + 1) 0
  let sumW := wi + wj
  let avg := (ri * wi + rj * wj) / sumW
  (((result.set i avg).set (i + 1) avg), ((weights.set i sumW).set (i + 1) sumW))

/-- The inner backwards loop: `while (i > 0 && result[i-1] < result[i])`
pool `i-1`, `i` and decrement `i`.  Returns the final index together with
the updated arrays. -/
def pavBackfix : ℕ → List ℚ → List ℚ → ℕ × List ℚ × List ℚ
  | 0, result, weights => (0, result, weights)
  | i + 1, result, weights =>
    if result.getD i 0 < result.getD (i + 1) 0 then
      let pooled := pavPool result weights i
      pavBackfix i pooled.1 pooled.2
    else (i + 1, result, weights)

/-- The outer sweep `while (i < n - 1)`, bounded by `fuel` iterations. -/
def pavSweep (n : ℕ) : ℕ → ℕ → List ℚ → List ℚ → List ℚ
  | 0, _, result, _ => result
  | fuel + 1, i, result, weights =>
    if i + 1 < n then
      if result.getD i 0 < result.getD (i + 1) 0 then
        let pooled := pavPool result weights i
        let fixed := pavBackfix i pooled.1 pooled.2
        pavSweep n fuel (fixed.1 + 1) fixed.2.1 fixed.2.2
      else
        pavSweep n fuel (i + 1) result weights
    else result

/-- The propagation pass over the tail of the array: for `j = 1..n-1`, if
`result[j] > result[j-1]` set `result[j] = result[j-1]`.  `prev` is the
(already final) value at position `j-1`. -/
def propagateFrom (prev : ℚ) : List ℚ → List ℚ
  | [] => []
  | y :: ys =>
    let z := if prev < y then prev else y
    z :: propagateFrom z ys

/-- The propagation pass of isotonicRegression (lines 753-757). -/
def propagatePooled : List ℚ → List ℚ
  | [] => []
  | x :: xs => x :: propagateFrom x xs

/-- Clipping to the unit interval: `Math.max(0, Math.min(1, v))`. -/
def clip01 (v : ℚ) : ℚ := max 0 (min 1 v)

/-- Translation of SignalsEngine.isotonicRegression with an explicit
iteration bound `fuel` for the sweep loop (see the section comment).  For a
non-decreasing target the input is negated, the non-increasing sweep is run,
and the output is negated back; the result is clipped to `[0, 1]`. -/
def isotonicRegression (fuel : ℕ) (values : List ℚ)
    (direction : MonotonicDirection) : List ℚ :=
  let n := values.length
  if n = 0 then []
  else
    let input := match direction with
      | .nondecreasing => values.map (fun v => -v)
      | .nonincreasing => values
    let result := pavSweep n fuel 0 input (List.replicate n 1)
    let propagated := propagatePooled result
    match direction with
    | .nondecreasing => propagated.map (fun v => clip01 (-v))
    | .nonincreasing => propagated.map clip01

/-- The monotonicity requirement of a direction, on adjacent entries. -/
def monoOfDir : MonotonicDirection → List ℚ → Prop
  | .nonincreasing, l => List.Chain' (· ≥ ·) l
  | .nondecreasing, l => List.Chain' (· ≤ ·) l

instance (d : MonotonicDirection) (l : List ℚ) : Decidable (monoOfDir d l) :=
  match d with
  | .nonincreasing => inferInstanceAs (Decidable (List.Chain' (· ≥ ·) l))
  | .nondecreasing => inferInstanceAs (Decidable (List.Chain' (· ≤ ·) l))

theorem clip01_nonneg (v : ℚ) : 0 ≤ clip01 v := le_max_left 0 _

theorem clip01_le_one (v : ℚ) : clip01 v ≤ 1 := by
  unfold clip01
  rcases le_total 0 (min 1 v) with h | h
  · rw [max_eq_right h]; exact min_le_left 1 v
  · rw [max_eq_left h]; exact zero_le_one

theorem clip01_mono {a b : ℚ} (h : a ≤ b) : clip01 a ≤ clip01 b :=
  max_le_max le_rfl (min_le_min le_rfl h)

theorem clip01_eq_self {v : ℚ} (h0 : 0 ≤ v) (h1 : v ≤ 1) : clip01 v = v := by
  unfold clip01
  rw [min_eq_right h1, max_eq_right h0]

theorem pavSweep_of_monotone {r : List ℚ} (h : List.Chain' (· ≥ ·) r) :
    ∀ (fuel i : ℕ) (w : List ℚ), pavSweep r.length fuel i r w = r := by
  intro fuel
  induction fuel with
  | zero => intro i w; rfl
  | succ fuel ih =>
    intro i w
    by_cases hi : i + 1 < r.length
    · have hlt : i < r.length := Nat.lt_of_succ_lt hi
      have hge : r.getD (i + 1) 0 ≤ r.getD i 0 := by
        rw [List.getD_eq_getElem r 0 hi, List.getD_eq_getElem r 0 hlt]
        simpa using List.chain'_iff_get.mp h i (by omega)
      simp only [pavSweep, if_pos hi, if_neg (not_lt.mpr hge)]
      exact ih (i + 1) w
    · simp only [pavSweep, if_neg hi]

theorem propagateFrom_chain (l : List ℚ) :
    ∀ prev : ℚ, List.Chain' (· ≥ ·) (prev :: propagateFrom prev l) := by
  induction l with
  | nil => intro prev; simp [propagateFrom]
  | cons y ys ih =>
    intro prev
    simp only [propagateFrom, List.chain'_cons]
    constructor
    · by_cases h : prev < y
      · simp [h]
      · simp only [if_neg h]; exact le_of_not_lt h
    · exact ih _

theorem propagatePooled_chain (l : List ℚ) : List.Chain' (· ≥ ·) (propagatePooled l) := by
  cases l with
  | nil => simp [propagatePooled]
  | cons x xs => exact propagateFrom_chain xs x

theorem propagateFrom_eq_self (l : List ℚ) :
    ∀ prev : ℚ, List.Chain' (· ≥ ·) (prev :: l) → propagateFrom prev l = l := by
  induction l with
  | nil => intro prev _; rfl
  | cons y ys ih =>
    intro prev h
    rw [List.chain'_cons] at h
    simp only [propagateFrom, if_neg (not_lt.mpr h.1)]
    rw [ih y h.2]

theorem propagatePooled_eq_self {l : List ℚ} (h : List.Chain' (· ≥ ·) l) :
    propagatePooled l = l := by
  cases l with
  | nil => rfl
  | cons x xs =>
    simp only [propagatePooled]
    rw [propagateFrom_eq_self xs x h]

theorem isotonicRegression_mono (fuel : ℕ) (values : List ℚ) (d : MonotonicDirection) :
    monoOfDir d (isotonicRegression fuel values d) := by
  by_cases hn : values.length = 0
  · cases d <;> simp [isotonicRegression, hn, monoOfDir]
  · cases d with
    | nonincreasing =>
      simp only [isotonicRegression, if_neg hn, monoOfDir]
      rw [List.chain'_map]
      exact (propagatePooled_chain _).imp (fun a b hab => clip01_mono hab)
    | nondecreasing =>
      simp only [isotonicRegression, if_neg hn, monoOfDir]
      rw [List.chain'_map]
      exact (propagatePooled_chain _).imp (fun a b hab => clip01_mono (neg_le_neg hab))

theorem isotonicRegression_mem (fuel : ℕ) (values : List ℚ) (d : MonotonicDirection) :
    ∀ v ∈ isotonicRegression fuel values d, 0 ≤ v ∧ v ≤ 1 := by
  intro v hv
  by_cases hn : values.length = 0
  · simp [isotonicRegression, hn] at hv
  · cases d with
    | nonincreasing =>
      simp only [isotonicRegression, if_neg hn, List.mem_map] at hv
      obtain ⟨x, _, rfl⟩ := hv
      exact ⟨clip01_nonneg x, clip01_le_one x⟩
    | nondecreasing =>
      simp only [isotonicRegression, if_neg hn, List.mem_map] at hv
      obtain ⟨x, _, rfl⟩ := hv
      exact ⟨clip01_nonneg _, clip01_le_one _⟩

theorem isotonicRegression_fixpoint (fuel : ℕ) (values : List ℚ) (d : MonotonicDirection)
    (h1 : monoOfDir d values) (h2 : ∀ v ∈ values, 0 ≤ v ∧ v ≤ 1) :
    isotonicRegression fuel values d = values := by
  by_cases hn : values.length = 0
  · rw [List.length_eq_zero] at hn
    cases d <;> simp [isotonicRegression, hn]
  · cases d with
    | nonincreasing =>
      simp only [monoOfDir] at h1
      simp only [isotonicRegression, if_neg hn]
      rw [pavSweep_of_monotone h1 fuel 0 _, propagatePooled_eq_self h1]
      rw [List.map_congr_left (fun v hv => clip01_eq_self (h2 v hv).1 (h2 v hv).2)]
      exact List.map_id values
    | nondecreasing =>
      simp only [monoOfDir] at h1
      simp only [isotonicRegression, if_neg hn]
      have hneg : List.Chain' (· ≥ ·) (values.map (fun v => -v)) := by
        rw [List.chain'_map]
        exact h1.imp (fun a b hab => neg_le_neg hab)
      have hlen : values.length = (values.map (fun v => -v)).length := (List.length_map _ _).symm
      rw [hlen, pavSweep_of_monotone hneg fuel 0 _, propagatePooled_eq_self hneg]
      rw [List.map_map]
      have : ∀ v ∈ values, ((fun v => clip01 (-v)) ∘ fun v => -v) v = v := by
        intro v hv
        simp only [Function.comp_apply, neg_neg]
        exact clip01_eq_self (h2 v hv).1 (h2 v hv).2
      rw [List.map_congr_left this]
      exact List.map_id values

/-- Claim C1 (corrected): for every iteration bound, input sequence and
direction, the PAV output is monotone in the required direction and every
output value lies in `[0, 1]`; the function is idempotent; and for an input
that is already monotone in the required direction *with all values in
`[0, 1]`* the output equals the input.  (Without the range restriction the
final clipping changes a monotone input, see the counterexample.) -/
theorem isotonic_law (fuel : ℕ) (values : List ℚ) (d : MonotonicDirection) :
    monoOfDir d (isotonicRegression fuel values d) ∧
    (∀ v ∈ isotonicRegression fuel values d, 0 ≤ v ∧ v ≤ 1) ∧
    (∀ fuel2 : ℕ,
      isotonicRegression fuel2 (isotonicRegression fuel values d) d =
        isotonicRegression fuel values d) ∧
    (monoOfDir d values → (∀ v ∈ values, 0 ≤ v ∧ v ≤ 1) →
      isotonicRegression fuel values d = values) :=
  ⟨isotonicRegression_mono fuel values d,
   isotonicRegression_mem fuel values d,
   fun fuel2 =>
     isotonicRegression_fixpoint fuel2 _ d (isotonicRegression_mono fuel values d)
       (isotonicRegression_mem fuel values d),
   fun h1 h2 => isotonicRegression_fixpoint fuel values d h1 h2⟩

/-- Witness for `isotonic_law` at a concrete monotone input within `[0, 1]`. -/
theorem isotonic_law_witness :
    isotonicRegression 2 [(1 : ℚ), 0] .nonincreasing = [(1 : ℚ), 0] :=
  (isotonic_law 2 [(1 : ℚ), 0] .nonincreasing).2.2.2
    (by simp [monoOfDir, List.chain'_cons])
    (by intro v hv; simp at hv; rcases hv with rfl | rfl <;> norm_num)

/-- Counterexample to claim C1 as stated: the singleton input `[2]` is
monotone in the non-increasing direction, yet the output is `[1]` (clipped),
not the input. -/
theorem isotonic_law_counterexample :
    monoOfDir .nonincreasing [(2 : ℚ)] ∧
      isotonicRegression 1 [(2 : ℚ)] .nonincreasing ≠ [(2 : ℚ)] := by
  constructor
  · simp [monoOfDir]
  · simp [isotonicRegression, pavSweep, propagatePooled, clip01]

/-! ## Theorems for the signal persistence lifecycle -/

/-- Claim C2: for one canonical signal key, under any state: a candidate is
only emitted when at least `PERSIST_MS = 3000` ms have elapsed since its
`firstSeenTs` and, if it was emitted before, at least `COOLDOWN_MS = 30000`
ms have passed since that emission (in particular the call that creates the
pending entry never emits); an emission records `emittedTs = now` and keeps
`firstSeenTs`; a non-emitting update also keeps `firstSeenTs` and
`emittedTs`; `cleanPendingSignals` drops a pending entry not seen for more
than 2000 ms; and after `clearOldSignals` with the 60000 ms default no
active signal older than 60 s remains. -/
theorem signal_persistence_law (pending : Option PendingEntry) (now : ℤ) (active : List ℤ) :
    ((handleSignalPersistence pending now).2 = true →
      ∃ e, pending = some e ∧ 3000 ≤ now - e.firstSeenTs ∧
        (∀ t, e.emittedTs = some t → 30000 ≤ now - t) ∧
        (handleSignalPersistence pending now).1 =
          some { firstSeenTs := e.firstSeenTs, lastSeenTs := now, emittedTs := some now }) ∧
    (pending = none →
      handleSignalPersistence pending now =
        (some { firstSeenTs := now, lastSeenTs := now, emittedTs := none }, false)) ∧
    (∀ e, pending = some e → (handleSignalPersistence pending now).2 = false →
      (handleSignalPersistence pending now).1 =
        some { firstSeenTs := e.firstSeenTs, lastSeenTs := now, emittedTs := e.emittedTs }) ∧
    (∀ e, pending = some e → 2000 < now - e.lastSeenTs →
      cleanPendingSignals pending now = none) ∧
    (∀ ts ∈ clearOldSignals active now 60000, now - ts ≤ 60000) := by
  refine ⟨?_, ?_, ?_, ?_, ?_⟩
  · intro hem
    match pending with
    | none => simp [handleSignalPersistence] at hem
    | some p =>
      by_cases hc : PERSIST_MS ≤ now - p.firstSeenTs ∧
          (match p.emittedTs with
           | none => true
           | some e => decide (COOLDOWN_MS ≤ now - e)) = true
      · refine ⟨p, rfl, ?_, ?_, ?_⟩
        · have := hc.1
          simpa [PERSIST_MS] using this
        · intro t ht
          have := hc.2
          rw [ht] at this
          simpa [COOLDOWN_MS] using of_decide_eq_true this
        · simp only [handleSignalPersistence, if_pos hc]
      · simp [handleSignalPersistence, if_neg hc] at hem
  · intro h
    subst h
    rfl
  · intro e he hem
    subst he
    by_cases hc : PERSIST_MS ≤ now - e.firstSeenTs ∧
        (match e.emittedTs with
         | none => true
         | some t => decide (COOLDOWN_MS ≤ now - t)) = true
    · simp [handleSignalPersistence, if_pos hc] at hem
    · simp only [handleSignalPersistence, if_neg hc]
  · intro e he hage
    subst he
    simp only [cleanPendingSignals, if_pos hage]
  · intro ts hts
    simp only [clearOldSignals, List.mem_filter, Bool.not_eq_true', decide_eq_false_iff_not,
      not_lt] at hts
    exact hts.2

/-- Witness for `signal_persistence_law`: a candidate first seen at time 0
and re-detected at time 3000 is emitted with `emittedTs = 3000`, and a
pending entry last seen at time 0 is dropped by a cleanup at time 2001. -/
theorem signal_persistence_law_witness :
    (handleSignalPersistence
        (some { firstSeenTs := 0, lastSeenTs := 500, emittedTs := none }) 3000).1 =
      some { firstSeenTs := 0, lastSeenTs := 3000, emittedTs := some 3000 } ∧
    cleanPendingSignals (some { firstSeenTs := 0, lastSeenTs := 0, emittedTs := none }) 2001 =
      none := by
  constructor
  · obtain ⟨e, he, -, -, hres⟩ :=
      (signal_persistence_law
        (some { firstSeenTs := 0, lastSeenTs := 500, emittedTs := none }) 3000 []).1 (by decide)
    obtain rfl : ({ firstSeenTs := 0, lastSeenTs := 500, emittedTs := none } : PendingEntry) = e :=
      Option.some.inj he
    exact hres
  · exact (signal_persistence_law _ 2001 []).2.2.2.1
      { firstSeenTs := 0, lastSeenTs := 0, emittedTs := none } rfl (by decide)

/-! ## Theorems for the order book -/

theorem buildSideMap_foldl_pos (levels : List (ℤ × ℤ)) :
    ∀ m : SideMap, (∀ p s, m p = some s → 0 < s) →
      ∀ p s,
        (levels.foldl (fun m pv => if 0 < pv.2 then m.set pv.1 pv.2 else m) m) p = some s →
        0 < s := by
  induction levels with
  | nil => intro m hm; exact hm
  | cons pv rest ih =>
    intro m hm
    simp only [List.foldl_cons]
    apply ih
    by_cases hq : 0 < pv.2
    · rw [if_pos hq]
      intro p s hps
      simp only [SideMap.set] at hps
      by_cases hp : p = pv.1
      · rw [if_pos hp] at hps
        obtain rfl := Option.some.inj hps
        exact hq
      · rw [if_neg hp] at hps
        exact hm p s hps
    · rw [if_neg hq]
      exact hm

theorem buildSideMap_pos (levels : List (ℤ × ℤ)) :
    ∀ p s, buildSideMap levels p = some s → 0 < s :=
  buildSideMap_foldl_pos levels emptySideMap (fun _ _ h => by simp [emptySideMap] at h)

theorem emptyBook_allPositive : emptyBook.allPositive := by
  intro side price size h
  cases side <;> simp [emptyBook, Book.get, emptySideMap] at h

theorem applyOrderbookDelta_get_same (b : Book) (side : BookSide) (price delta : ℤ) :
    (applyOrderbookDelta b side price delta).get side price =
      (if (b.get side price).getD 0 + delta ≤ 0 then none
       else some ((b.get side price).getD 0 + delta)) := by
  cases side with
  | yes =>
    simp only [applyOrderbookDelta, Book.get]
    by_cases hz : (b.yes price).getD 0 + delta ≤ 0 <;>
      simp [SideMap.del, SideMap.set, hz]
  | no =>
    simp only [applyOrderbookDelta, Book.get]
    by_cases hz : (b.no price).getD 0 + delta ≤ 0 <;>
      simp [SideMap.del, SideMap.set, hz]

theorem applyOrderbookDelta_get_other_price (b : Book) (side : BookSide) (price delta q : ℤ)
    (hq : q ≠ price) :
    (applyOrderbookDelta b side price delta).get side q = b.get side q := by
  cases side with
  | yes =>
    simp only [applyOrderbookDelta, Book.get]
    by_cases hz : (b.yes price).getD 0 + delta ≤ 0 <;>
      simp [SideMap.del, SideMap.set, hq, hz]
  | no =>
    simp only [applyOrderbookDelta, Book.get]
    by_cases hz : (b.no price).getD 0 + delta ≤ 0 <;>
      simp [SideMap.del, SideMap.set, hq, hz]

theorem applyOrderbookDelta_get_other_side (b : Book) (side : BookSide) (price delta : ℤ)
    (s2 : BookSide) (hs : s2 ≠ side) :
    (applyOrderbookDelta b side price delta).get s2 = b.get s2 := by
  cases side <;> cases s2 <;>
    first
      | exact absurd rfl hs
      | simp [applyOrderbookDelta, Book.get]

theorem applyBookEvent_pos {b : Book} (hb : b.allPositive) (ev : BookEvent) :
    (applyBookEvent b ev).allPositive := by
  cases ev with
  | snapshot yes no =>
    intro side price size h
    cases side with
    | yes => exact buildSideMap_pos yes price size h
    | no => exact buildSideMap_pos no price size h
  | delta side price delta =>
    intro s2 q size h
    simp only [applyBookEvent] at h
    by_cases hs : s2 = side
    · subst hs
      by_cases hq : q = price
      · subst hq
        rw [applyOrderbookDelta_get_same] at h
        by_cases hz : (b.get s2 q).getD 0 + delta ≤ 0
        · rw [if_pos hz] at h
          exact absurd h (by simp)
        · rw [if_neg hz] at h
          obtain rfl := Option.some.inj h
          exact lt_of_not_le hz
      · rw [applyOrderbookDelta_get_other_price b s2 price delta q hq] at h
        exact hb s2 q size h
    · rw [applyOrderbookDelta_get_other_side b side price delta s2 hs] at h
      exact hb s2 q size h

theorem applyBookEvents_foldl_pos (events : List BookEvent) :
    ∀ b : Book, b.allPositive → (events.foldl applyBookEvent b).allPositive := by
  induction events with
  | nil => intro b hb; exact hb
  | cons ev rest ih =>
    intro b hb
    simp only [List.foldl_cons]
    exact ih _ (applyBookEvent_pos hb ev)

/-- Claim C3: for any sequence of snapshot and delta events applied to a
market book (which starts empty), every price level present on either side
has strictly positive size; a snapshot replaces both side maps independently
of the previous book, keeping only positive levels; a delta sets the level
to `prev + delta`, deleting it when the new size is `≤ 0`, and leaves every
other price and the other side unchanged. -/
theorem orderbook_events_law (events : List BookEvent) (book : Book) (side : BookSide)
    (price delta : ℤ) (yes no : List (ℤ × ℤ)) :
    (applyBookEvents events).allPositive ∧
    (∀ b2 : Book, applyOrderbookSnapshot book yes no = applyOrderbookSnapshot b2 yes no) ∧
    (∀ p s, (applyOrderbookSnapshot book yes no).get side p = some s → 0 < s) ∧
    ((applyOrderbookDelta book side price delta).get side price =
      (if (book.get side price).getD 0 + delta ≤ 0 then none
       else some ((book.get side price).getD 0 + delta))) ∧
    (∀ q, q ≠ price →
      (applyOrderbookDelta book side price delta).get side q = book.get side q) ∧
    (∀ s2, s2 ≠ side →
      (applyOrderbookDelta book side price delta).get s2 = book.get s2) := by
  refine ⟨applyBookEvents_foldl_pos events emptyBook emptyBook_allPositive, fun b2 => rfl,
    ?_, applyOrderbookDelta_get_same book side price delta,
    fun q hq => applyOrderbookDelta_get_other_price book side price delta q hq,
    fun s2 hs => applyOrderbookDelta_get_other_side book side price delta s2 hs⟩
  intro p s h
  cases side with
  | yes => exact buildSideMap_pos yes p s h
  | no => exact buildSideMap_pos no p s h

/-- Witness for `orderbook_events_law`: a delta on the YES side at price 50
leaves price 49 and the NO side untouched. -/
theorem orderbook_events_law_witness :
    (applyOrderbookDelta emptyBook .yes 50 7).get .yes 49 = emptyBook.get .yes 49 ∧
    (applyOrderbookDelta emptyBook .yes 50 7).get .no = emptyBook.get .no :=
  ⟨(orderbook_events_law [] emptyBook .yes 50 7 [] []).2.2.2.2.1 49 (by decide),
   (orderbook_events_law [] emptyBook .yes 50 7 [] []).2.2.2.2.2 .no (by decide)⟩

/-! ## Theorems for dirty-set tracking (claim C8) -/

theorem mem_addDirty (dirty : List String) (t : String) : t ∈ addDirty dirty t := by
  unfold addDirty
  by_cases h : t ∈ dirty
  · rwa [if_pos h]
  · rw [if_neg h]
    simp

/-- Claim C8 (corrected): every `apply_*` operation marks its market dirty;
`computeStats` recomputes exactly the markets of the dirty set while
`computeAllStats` covers every known market regardless of the dirty set;
both clear the dirty set; and the fast periodic stats tick of the stream
route invokes `computeAllStats`, the full pass, not the dirty-only
computation. -/
theorem dirty_set_law (e e2 : StatsEngine) (conn : ConnectionState) (t : String) (now : ℤ)
    (yes_price count : Option ℚ) (taker : Option String) (bid ask : Option ℚ) :
    t ∈ (onTickerUpdate e t now).dirtyMarkets ∧
    t ∈ (onOrderbookUpdate e t now).dirtyMarkets ∧
    t ∈ (onTradeUpdate e t yes_price count taker bid ask now).dirtyMarkets ∧
    (computeStats e conn).1 = e.dirtyMarkets ∧
    (computeStats e conn).2.dirtyMarkets = [] ∧
    ((t ∈ conn.tickersByMarket ∨ t ∈ conn.orderbookByMarket) →
      t ∈ (computeAllStats e conn).1) ∧
    (computeAllStats e conn).2.dirtyMarkets = [] ∧
    (computeAllStats e conn).1 = (computeAllStats e2 conn).1 ∧
    statsTick e conn = computeAllStats e conn := by
  refine ⟨mem_addDirty _ t, mem_addDirty _ t, mem_addDirty _ t, rfl, rfl, ?_, rfl, rfl, rfl⟩
  intro ht
  simp only [computeAllStats, List.mem_append]
  rcases ht with ht | ht
  · exact Or.inl ht
  · by_cases htk : t ∈ conn.tickersByMarket
    · exact Or.inl htk
    · refine Or.inr ?_
      rw [List.mem_filter]
      exact ⟨ht, by simp [htk]⟩

/-- Witness for `dirty_set_law`: a market known only from its order book is
covered by the full pass. -/
theorem dirty_set_law_witness :
    "MKT" ∈ (computeAllStats { buffers := [], dirtyMarkets := [] }
      { tickersByMarket := [], orderbookByMarket := ["MKT"] }).1 :=
  (dirty_set_law { buffers := [], dirtyMarkets := [] } { buffers := [], dirtyMarkets := [] }
      { tickersByMarket := [], orderbookByMarket := ["MKT"] } "MKT" 0 none none none none
      none).2.2.2.2.2.1 (Or.inr (by simp))

/-- Counterexample to claim C8 as stated: the fast periodic stats tick
(`statsBatchTimer` in the stream route) recomputes a market that is not in
the dirty set, because it calls `computeAllStats`, the full pass, rather
than the dirty-only `computeStats`. -/
theorem dirty_set_law_counterexample :
    "MKT" ∈ (statsTick { buffers := [], dirtyMarkets := [] }
        { tickersByMarket := ["MKT"], orderbookByMarket := [] }).1 ∧
    "MKT" ∉ ({ buffers := [], dirtyMarkets := [] } : StatsEngine).dirtyMarkets := by
  constructor
  · simp [statsTick, computeAllStats]
  · simp

/-! ## Theorems for trade-side inference (claim C9) -/

/-- Claim C9 (corrected): the recorded trade side is buy when `taker_side`
lowercases to "yes"; sell for every other non-empty `taker_side` (not only
"no"); when `taker_side` is absent or empty the trade is classified against
the mid of the hints, but only when both hints are present *and the price is
positive*: at or above the mid is buy, below is sell; otherwise the side is
unknown. -/
theorem trade_side_law (taker : Option String) (price : ℚ) (b a : ℚ)
    (bid ask : Option ℚ) :
    (∀ s, taker = some s → s ≠ "" → lowerAscii s = "yes" →
      inferTradeSide taker price bid ask = .buy) ∧
    (∀ s, taker = some s → s ≠ "" → lowerAscii s ≠ "yes" →
      inferTradeSide taker price bid ask = .sell) ∧
    ((taker = none ∨ taker = some "") → 0 < price → (b + a) / 2 ≤ price →
      inferTradeSide taker price (some b) (some a) = .buy) ∧
    ((taker = none ∨ taker = some "") → 0 < price → price < (b + a) / 2 →
      inferTradeSide taker price (some b) (some a) = .sell) ∧
    ((taker = none ∨ taker = some "") → price ≤ 0 →
      inferTradeSide taker price (some b) (some a) = .unknown) ∧
    ((taker = none ∨ taker = some "") → (bid = none ∨ ask = none) →
      inferTradeSide taker price bid ask = .unknown) := by
  refine ⟨?_, ?_, ?_, ?_, ?_, ?_⟩
  · intro s hs hne hyes
    subst hs
    simp [inferTradeSide, hne, hyes]
  · intro s hs hne hyes
    subst hs
    simp [inferTradeSide, hne, hyes]
  · intro htaker hp hm
    rcases htaker with rfl | rfl <;>
      simp [inferTradeSide, inferTradeSideFromMid, hp, hm]
  · intro htaker hp hm
    rcases htaker with rfl | rfl <;>
      simp [inferTradeSide, inferTradeSideFromMid, hp, not_le.mpr hm]
  · intro htaker hp
    rcases htaker with rfl | rfl <;>
      simp [inferTradeSide, inferTradeSideFromMid, not_lt.mpr hp]
  · intro htaker hba
    rcases hba with rfl | rfl
    · rcases htaker with rfl | rfl <;> cases ask <;>
        simp [inferTradeSide, inferTradeSideFromMid]
    · rcases htaker with rfl | rfl <;> cases bid <;>
        simp [inferTradeSide, inferTradeSideFromMid]

/-- Witness for `trade_side_law`: with no taker side, hints 10 and 20 and
price 50 the trade is classified as a buy. -/
theorem trade_side_law_witness :
    inferTradeSide none 50 (some 10) (some 20) = .buy :=
  (trade_side_law none 50 10 20 none none).2.2.1 (Or.inl rfl) (by norm_num) (by norm_num)

/-- Counterexample to claim C9 as stated: for a non-empty `taker_side` that
is neither "yes" nor "no" the source records a sell, while the claim asks
for classification against the mid (here a buy, since 50 is above the mid
15 of the hints). -/
theorem trade_side_law_counterexample :
    inferTradeSide (some "x") 50 (some 10) (some 20) = .sell ∧
    claimedTradeSide (some "x") 50 (some 10) (some 20) = .buy ∧
    TradeSide.sell ≠ TradeSide.buy := by
  refine ⟨by decide, ?_, by decide⟩
  simp only [claimedTradeSide]
  rw [if_neg (by decide), if_neg (by decide), if_pos (by norm_num)]

/-! ## Ladder points and the ladder builder (signals.ts lines 34-57, 369-511)

`LadderPoint` keeps the fields of the source interface that the settled
claims read.  The `title`, `mid`, `bid`, `ask`, `fitted_prob`, `residual`,
`is_outlier` and `parse_source` fields are omitted: no claim mentions
them. -/

inductive ExcludeReason where
  | low_liquidity
  | wide_spread
  | stale
  deriving DecidableEq, Repr

structure LadderPoint where
  line : ℚ
  side : String
  market_ticker : String
  bid_prob : ℚ
  ask_prob : ℚ
  mid_prob : ℚ
  depth_bid : Option ℚ
  depth_ask : Option ℚ
  volume : Option ℚ
  spread_cents : Option ℚ
  is_violation : Bool := false
  is_primary : Bool := true
  is_excluded : Bool := false
  exclude_reason : Option ExcludeReason := none
  deriving DecidableEq, Repr, Inhabited

/-- The fields of an enriched market-stats record that the ladder builder
reads (interface EnrichedMarketStats; every field is optional there except
the ticker). -/
structure EStats where
  market_ticker : String
  line : Option ℚ
  side : Option String
  best_bid : Option ℚ
  best_ask : Option ℚ
  mid : Option ℚ
  sum_bid_top5 : Option ℚ
  sum_ask_top5 : Option ℚ
  volume : Option ℚ
  spread : Option ℚ
  last_ticker_age_ms : Option ℚ
  last_orderbook_age_ms : Option ℚ
  deriving DecidableEq, Repr

/-- `min(sum_bid_top5 ?? 0, sum_ask_top5 ?? 0)` of a stats record. -/
def statMinDepth (m : EStats) : ℚ := min (m.sum_bid_top5.getD 0) (m.sum_ask_top5.getD 0)

/-- `m.spread ?? 100` of a stats record. -/
def statSpread (m : EStats) : ℚ := m.spread.getD 100

/-- `max(last_ticker_age_ms ?? 0, last_orderbook_age_ms ?? 0)`. -/
def statMaxAge (m : EStats) : ℚ :=
  max (m.last_ticker_age_ms.getD 0) (m.last_orderbook_age_ms.getD 0)

/-- Translation of the raw-point construction of buildLadder (lines 392-445):
gating thresholds produce `is_excluded` and `exclude_reason`, missing price
fields default to bid 0, ask 100, mid 50 (divided by 100 into
probabilities), a missing spread counts as 100 cents. -/
def mkRawPoint (m : EStats) : LadderPoint :=
  let minDepth := statMinDepth m
  let spread := statSpread m
  let maxAge := statMaxAge m
  let gate : Bool × Option ExcludeReason :=
    if minDepth < MIN_LIQUIDITY_DEPTH ∧ m.volume.getD 0 < MIN_LIQUIDITY_VOLUME then
      (true, some .low_liquidity)
    else if MAX_SPREAD_CENTS < spread then (true, some .wide_spread)
    else if MAX_STALE_MS < maxAge then (true, some .stale)
    else (false, none)
  { line := m.line.getD 0,
    side := m.side.getD "Unknown",
    market_ticker := m.market_ticker,
    bid_prob := m.best_bid.getD 0 / 100,
    ask_prob := m.best_ask.getD 100 / 100,
    mid_prob := m.mid.getD 50 / 100,
    depth_bid := m.sum_bid_top5,
    depth_ask := m.sum_ask_top5,
    volume := m.volume,
    spread_cents := some spread,
    is_excluded := gate.1,
    exclude_reason := gate.2,
    is_primary := true,
    is_violation := false }

/-- `min(depth_bid ?? 0, depth_ask ?? 0)`, the liquidity used by the
deduplication comparator. -/
def minLiq (p : LadderPoint) : ℚ := min (p.depth_bid.getD 0) (p.depth_ask.getD 0)

/-- The descending-liquidity comparator `(a, b) => bLiq - aLiq` of the
deduplication sort. -/
def liqGe (a b : LadderPoint) : Prop := minLiq b ≤ minLiq a

instance : DecidableRel liqGe := fun a b => inferInstanceAs (Decidable (minLiq b ≤ minLiq a))

instance : IsTotal LadderPoint liqGe := ⟨fun a b => le_total (minLiq b) (minLiq a)⟩

instance : IsTrans LadderPoint liqGe := ⟨fun _ _ _ h1 h2 => le_trans h2 h1⟩

/-- The ascending-line comparator `(a, b) => a.line - b.line`. -/
def lineLe (a b : LadderPoint) : Prop := a.line ≤ b.line

instance : DecidableRel lineLe := fun a b => inferInstanceAs (Decidable (a.line ≤ b.line))

instance : IsTotal LadderPoint lineLe := ⟨fun a b => le_total a.line b.line⟩

instance : IsTrans LadderPoint lineLe := ⟨fun _ _ _ h1 h2 => le_trans h1 h2⟩

/-- The raw points of buildLadder: markets with a line, mapped to points and
sorted by line ascending (the JavaScript in-place sort is modelled by a
stable sort). -/
def rawLadderPoints (markets : List EStats) : List LadderPoint :=
  List.insertionSort lineLe ((markets.filter (fun m => m.line ≠ none)).map mkRawPoint)

/-- Model of the insertion-ordered `Map` grouping `lineToPoints` of
buildLadder (lines 449-455): one group per distinct line, in first-occurrence
order, each group listing its points in list order. -/
def groupPairs : List LadderPoint → List (ℚ × List LadderPoint)
  | [] => []
  | p :: rest =>
    (p.line, p :: rest.filter (fun q => decide (q.line = p.line))) ::
      groupPairs (rest.filter (fun q => decide (q.line ≠ p.line)))
termination_by l => l.length
decreasing_by
  simp only [List.length_cons]
  exact Nat.lt_succ_of_le (List.length_filter_le _ _)

/-- The primary marking of a sorted duplicate group (lines 467-470):
`pts[0].is_primary = true`, siblings `false`. -/
def markPrimaries : List LadderPoint → List LadderPoint
  | [] => []
  | p :: rest =>
    { p with is_primary := true } :: rest.map (fun q => { q with is_primary := false })

/-- The per-group deduplication (lines 458-471): groups with more than one
point are sorted by descending `min(depth_bid, depth_ask)` and marked. -/
def dedupeOne (pts : List LadderPoint) : List LadderPoint :=
  if 1 < pts.length then markPrimaries (List.insertionSort liqGe pts) else pts

/-- The selection at lines 472-476: the head of a deduplicated group is kept
only when it is primary and not excluded. -/
def selectPrimary : List LadderPoint → Option LadderPoint
  | [] => none
  | prim :: _ =>
    if prim.is_primary = true ∧ prim.is_excluded = false then some prim else none

/-- The analysed points of a grouped ladder: the selected head of each
deduplicated group. -/
def analysedPoints (groups : List (ℚ × List LadderPoint)) : List LadderPoint :=
  groups.filterMap (fun g => selectPrimary (dedupeOne g.2))

/-- `duplicates_dropped`: each group contributes its sibling count
(`pts.length - 1`; zero for singleton groups). -/
def duplicatesDropped (groups : List (ℚ × List LadderPoint)) : ℕ :=
  (groups.map (fun g => g.2.length - 1)).sum

/-- The diagnostics fields the settled claims read; `parsed_markets` and
`unparsed_markets` are omitted (they need the metadata map, which no claim
mentions). -/
structure LadderDiagnostics where
  total_markets : ℕ
  duplicates_dropped : ℕ
  excluded_by_liquidity : ℕ
  excluded_by_spread : ℕ
  excluded_by_staleness : ℕ
  deriving DecidableEq, Repr

structure LadderCore where
  points : List LadderPoint
  diagnostics : LadderDiagnostics
  deriving Repr

/-- Translation of the point/diagnostics pipeline of
SignalsEngine.buildLadder (lines 379-511): raw points with gating, grouping
by line, deduplication, selection of primary non-excluded points, final sort
by line.  The monotonicity and outlier passes over the resulting points are
modelled separately (`checkMonotonicity`). -/
def buildLadder (markets : List EStats) : LadderCore :=
  let raw := rawLadderPoints markets
  let groups := groupPairs raw
  { points := List.insertionSort lineLe (analysedPoints groups),
    diagnostics :=
      { total_markets := markets.length,
        duplicates_dropped := duplicatesDropped groups,
        excluded_by_liquidity :=
          raw.countP (fun p => decide (p.exclude_reason = some .low_liquidity)),
        excluded_by_spread :=
          raw.countP (fun p => decide (p.exclude_reason = some .wide_spread)),
        excluded_by_staleness :=
          raw.countP (fun p => decide (p.exclude_reason = some .stale)) } }

/-! ## Monotonicity check (signals.ts lines 593-655, checkMonotonicity) -/

/-- The violation margin of an adjacent pair (lines 607-625): the dynamic
epsilon is half the average spread, at least `MONO_EPSILON`; for a
non-increasing ladder the margin is `(bid_j - ask_i - eps) * 100` cents, for
a non-decreasing one `(bid_i - ask_j - eps) * 100`. -/
def monoMargin (direction : MonotonicDirection) (ptI ptJ : LadderPoint) : ℚ :=
  let avgSpread := (ptI.spread_cents.getD 0 + ptJ.spread_cents.getD 0) / 2
  let dynamicEpsilon := max MONO_EPSILON (avgSpread / 100 * (1 / 2))
  match direction with
  | .nonincreasing => (ptJ.bid_prob - ptI.ask_prob - dynamicEpsilon) * 100
  | .nondecreasing => (ptI.bid_prob - ptJ.ask_prob - dynamicEpsilon) * 100

def markViolation (p : LadderPoint) : LadderPoint := { p with is_violation := true }

/-- The loop body of checkMonotonicity, carried over the current head:
returns the marked points, the violation count, the running maximum margin
and the magnitudes of the emitted MONO_VIOLATION candidates, in pair
order. -/
def checkMonoGo (direction : MonotonicDirection) (p : LadderPoint) :
    List LadderPoint → List LadderPoint × ℕ × ℚ × List ℚ
  | [] => ([p], 0, 0, [])
  | q :: rest =>
    let m := monoMargin direction p q
    if MONO_MIN_CENTS ≤ m then
      let res := checkMonoGo direction (markViolation q) rest
      (markViolation p :: res.1, res.2.1 + 1, max res.2.2.1 m, m :: res.2.2.2)
    else
      let res := checkMonoGo direction q rest
      (p :: res.1, res.2.1, res.2.2.1, res.2.2.2)

/-- Translation of SignalsEngine.checkMonotonicity: walk adjacent pairs of
the (line-sorted) points; when the margin reaches `MONO_MIN_CENTS` mark both
points `is_violation`, count the violation, track the maximum margin and
produce a MONO_VIOLATION candidate whose magnitude is the margin. -/
def checkMonotonicity (direction : MonotonicDirection) :
    List LadderPoint → List LadderPoint × ℕ × ℚ × List ℚ
  | [] => ([], 0, 0, [])
  | p :: rest => checkMonoGo direction p rest

/-- The margins of the adjacent pairs of a point list, in order. -/
def adjacentMargins (direction : MonotonicDirection) : List LadderPoint → List ℚ
  | [] => []
  | [_] => []
  | p :: q :: rest => monoMargin direction p q :: adjacentMargins direction (q :: rest)

/-- Whether the adjacent pair starting at index `i` violates the margin
threshold. -/
def violPairB (direction : MonotonicDirection) (l : List LadderPoint) (i : ℕ) : Bool :=
  decide (i + 1 < l.length) &&
    decide (MONO_MIN_CENTS ≤ monoMargin direction (l.getD i default) (l.getD (i + 1) default))

/-! ## Cross-ladder arbitrage (signals.ts lines 517-591) -/

inductive SignalType where
  | MONO_VIOLATION
  | NEG_MASS
  | SUM_GT_1
  | OUTLIER_LINE
  | STALE_QUOTE
  | JUMP
  | LOW_LIQUIDITY
  | WIDE_SPREAD
  deriving DecidableEq, Repr

inductive SignalConfidence where
  | low
  | medium
  | high
  deriving DecidableEq, Repr

inductive LadderType where
  | spread
  | total
  deriving DecidableEq, Repr

/-- The fields of a ladder that the arbitrage detector reads. -/
structure Ladder where
  ladder_key : String
  ladder_type : LadderType
  team_or_direction : String
  points : List LadderPoint
  deriving DecidableEq, Repr

/-- The fields of the emitted SUM_GT_1 candidate that the claims read; the
`id` counter and the formatted `suggested_action`/`reason` strings are
omitted. -/
structure ArbSignal where
  ts : ℤ
  market_ticker : String
  type : SignalType
  confidence : SignalConfidence
  magnitude : ℚ
  related_tickers : List String
  severity_score : ℚ
  ladder_key : String
  deriving DecidableEq, Repr

/-- The SUM_GT_1 candidate built at lines 570-583. -/
def mkArbSignal (l1 : Ladder) (p1 p2 : LadderPoint) (sumBids : ℚ) (now : ℤ) : ArbSignal :=
  let profitCents := (sumBids - 1) * 100
  { ts := now,
    market_ticker := p1.market_ticker,
    type := .SUM_GT_1,
    confidence := .high,
    magnitude := profitCents,
    related_tickers := [p1.market_ticker, p2.market_ticker],
    severity_score := profitCents * 10,
    ladder_key := l1.ladder_key }

/-- The opposing-sides test (lines 531-533). -/
def isOpposing (l1 l2 : Ladder) : Prop :=
  (l1.ladder_type = .total ∧
    ((l1.team_or_direction = "Over" ∧ l2.team_or_direction = "Under") ∨
     (l1.team_or_direction = "Under" ∧ l2.team_or_direction = "Over"))) ∨
  (l1.ladder_type = .spread ∧ l1.team_or_direction ≠ l2.team_or_direction)

instance (l1 l2 : Ladder) : Decidable (isOpposing l1 l2) :=
  inferInstanceAs (Decidable (_ ∨ _))

/-- The mirror-point search (lines 543-544): negated line for spreads, equal
line for totals, tolerance 0.01. -/
def findMirror (l1type : LadderType) (l2 : Ladder) (p1 : LadderPoint) : Option LadderPoint :=
  let targetLine := if l1type = .spread then -p1.line else p1.line
  l2.points.find? (fun p => decide (|p.line - targetLine| < 1 / 100))

/-- The body of the inner double loop for one ladder pair: skip unless the
types are equal and the sides opposing; for each point of the first ladder
with a mirror in the second, emit a SUM_GT_1 candidate when the bid
probabilities sum above 1.01. -/
def pairArb (l1 l2 : Ladder) (now : ℤ) : List ArbSignal :=
  if l1.ladder_type ≠ l2.ladder_type then []
  else if ¬isOpposing l1 l2 then []
  else
    l1.points.flatMap (fun p1 =>
      match findMirror l1.ladder_type l2 p1 with
      | none => []
      | some p2 =>
        let sumBids := p1.bid_prob + p2.bid_prob
        if 101 / 100 < sumBids then [mkArbSignal l1 p1 p2 sumBids now] else [])

/-- The ordered index pairs `i < j` of the double loop (lines 521-522). -/
def pairsAfter : List Ladder → List (Ladder × Ladder)
  | [] => []
  | x :: xs => xs.map (fun y => (x, y)) ++ pairsAfter xs

/-- Translation of SignalsEngine.detectCrossLadderArb. -/
def detectCrossLadderArb (ladders : List Ladder) (now : ℤ) : List ArbSignal :=
  (pairsAfter ladders).flatMap (fun pr => pairArb pr.1 pr.2 now)

/-! ## Theorems for the monotonicity check (claim C4) -/

theorem monoMargin_markViolation_left (d : MonotonicDirection) (q r : LadderPoint) :
    monoMargin d (markViolation q) r = monoMargin d q r := rfl

theorem adjacentMargins_markViolation (d : MonotonicDirection) (q : LadderPoint)
    (rest : List LadderPoint) :
    adjacentMargins d (markViolation q :: rest) = adjacentMargins d (q :: rest) := by
  cases rest with
  | nil => rfl
  | cons r rs => rfl

theorem checkMonoGo_cands (d : MonotonicDirection) :
    ∀ (rest : List LadderPoint) (p : LadderPoint),
      (checkMonoGo d p rest).2.2.2 =
        (adjacentMargins d (p :: rest)).filter (fun m => decide (MONO_MIN_CENTS ≤ m)) := by
  intro rest
  induction rest with
  | nil => intro p; rfl
  | cons q rs ih =>
    intro p
    by_cases hm : MONO_MIN_CENTS ≤ monoMargin d p q
    · simp only [checkMonoGo, if_pos hm, adjacentMargins, List.filter_cons]
      rw [ih (markViolation q), adjacentMargins_markViolation]
      simp [hm]
    · simp only [checkMonoGo, if_neg hm, adjacentMargins, List.filter_cons]
      rw [ih q]
      simp [hm]

theorem checkMonoGo_count (d : MonotonicDirection) :
    ∀ (rest : List LadderPoint) (p : LadderPoint),
      (checkMonoGo d p rest).2.1 =
        (adjacentMargins d (p :: rest)).countP (fun m => decide (MONO_MIN_CENTS ≤ m)) := by
  intro rest
  induction rest with
  | nil => intro p; rfl
  | cons q rs ih =>
    intro p
    by_cases hm : MONO_MIN_CENTS ≤ monoMargin d p q
    · simp only [checkMonoGo, if_pos hm, adjacentMargins, List.countP_cons]
      rw [ih (markViolation q), adjacentMargins_markViolation]
      simp [hm]
    · simp only [checkMonoGo, if_neg hm, adjacentMargins, List.countP_cons]
      rw [ih q]
      simp [hm]

theorem violPairB_zero_cons (d : MonotonicDirection) (p q : LadderPoint)
    (rs : List LadderPoint) :
    violPairB d (p :: q :: rs) 0 = decide (MONO_MIN_CENTS ≤ monoMargin d p q) := by
  have h : (0 : ℕ) + 1 < (p :: q :: rs).length := by simp
  simp only [violPairB, List.getD_cons_zero, List.getD_cons_succ]
  rw [decide_eq_true h, Bool.true_and]

theorem violPairB_cons_succ (d : MonotonicDirection) (x : LadderPoint)
    (l : List LadderPoint) (j : ℕ) :
    violPairB d (x :: l) (j + 1) = violPairB d l j := by
  simp only [violPairB, List.getD_cons_succ, List.length_cons]
  congr 1
  apply decide_eq_decide.mpr
  omega

theorem violPairB_markViolation (d : MonotonicDirection) (q : LadderPoint)
    (rest : List LadderPoint) (i : ℕ) :
    violPairB d (markViolation q :: rest) i = violPairB d (q :: rest) i := by
  cases i with
  | zero =>
    cases rest with
    | nil => simp [violPairB]
    | cons r rs =>
      rw [violPairB_zero_cons, violPairB_zero_cons, monoMargin_markViolation_left]
  | succ j =>
    rw [violPairB_cons_succ, violPairB_cons_succ]

/-- A ladder point for the concrete monotonicity examples of the claim:
`spread_cents = ask - bid`, ample depth and volume. -/
def monoExamplePoint (line bid ask : ℚ) : LadderPoint :=
  { line := line, side := "Over", market_ticker := "T",
    bid_prob := bid / 100, ask_prob := ask / 100, mid_prob := (bid + ask) / 200,
    depth_bid := some 3000, depth_ask := some 3000, volume := some 10000,
    spread_cents := some (ask - bid) }

theorem checkMonoGo_mark (d : MonotonicDirection) :
    ∀ (rest : List LadderPoint) (p : LadderPoint) (k : ℕ), k < (p :: rest).length →
      ((checkMonoGo d p rest).1.getD k default).is_violation =
        (((p :: rest).getD k default).is_violation
          || (decide (0 < k) && violPairB d (p :: rest) (k - 1))
          || violPairB d (p :: rest) k) := by
  intro rest
  induction rest with
  | nil =>
    intro p k hk
    have hk0 : k = 0 := by
      simp only [List.length_cons, List.length_nil] at hk
      omega
    subst hk0
    simp [checkMonoGo, violPairB]
  | cons q rs ih =>
    intro p k hk
    have hpq : violPairB d (p :: q :: rs) 0 = decide (MONO_MIN_CENTS ≤ monoMargin d p q) :=
      violPairB_zero_cons d p q rs
    by_cases hm : MONO_MIN_CENTS ≤ monoMargin d p q
    · simp only [checkMonoGo, if_pos hm]
      cases k with
      | zero =>
        simp [markViolation, hpq, hm, List.getD_cons_zero]
      | succ k =>
        rw [List.getD_cons_succ]
        have hk2 : k < (markViolation q :: rs).length := by
          simp only [List.length_cons] at hk ⊢
          omega
        rw [ih (markViolation q) k hk2]
        cases k with
        | zero =>
          simp [markViolation, hpq, hm, List.getD_cons_zero, List.getD_cons_succ,
            violPairB_markViolation]
        | succ j =>
          rw [violPairB_markViolation, violPairB_markViolation]
          rw [List.getD_cons_succ]
          rw [show ((p :: q :: rs).getD (j + 1 + 1) default) = ((q :: rs).getD (j + 1) default)
            from List.getD_cons_succ]
          rw [violPairB_cons_succ d p (q :: rs) (j + 1)]
          rw [show violPairB d (p :: q :: rs) (j + 1 + 1 - 1) = violPairB d (q :: rs) j by
            rw [show j + 1 + 1 - 1 = j + 1 from rfl, violPairB_cons_succ]]
          simp [List.getD_cons_succ]
    · simp only [checkMonoGo, if_neg hm]
      cases k with
      | zero =>
        have hz : violPairB d (p :: q :: rs) 0 = false := by
          rw [hpq]
          simpa using hm
        simp [hz, List.getD_cons_zero]
      | succ k =>
        rw [List.getD_cons_succ]
        have hk2 : k < (q :: rs).length := by
          simp only [List.length_cons] at hk ⊢
          omega
        rw [ih q k hk2]
        cases k with
        | zero =>
          have hz : violPairB d (p :: q :: rs) 0 = false := by
            rw [hpq]
            simpa using hm
          rw [violPairB_cons_succ d p (q :: rs) 0]
          simp [hz, List.getD_cons_zero, List.getD_cons_succ]
        | succ j =>
          rw [List.getD_cons_succ]
          rw [show ((p :: q :: rs).getD (j + 1 + 1) default) = ((q :: rs).getD (j + 1) default)
            from List.getD_cons_succ]
          rw [violPairB_cons_succ d p (q :: rs) (j + 1)]
          rw [show violPairB d (p :: q :: rs) (j + 1 + 1 - 1) = violPairB d (q :: rs) j by
            rw [show j + 1 + 1 - 1 = j + 1 from rfl, violPairB_cons_succ]]
          simp

/-- Claim C4: for each adjacent pair of analysed points, with the dynamic
epsilon `max(0.015, 0.5 * avg_spread / 100)`, the margin is
`(bid_j - ask_i - eps) * 100` for a non-increasing ladder and
`(bid_i - ask_j - eps) * 100` for a non-decreasing one; exactly the pairs
whose margin reaches 3 cents are counted, produce a MONO_VIOLATION candidate
whose magnitude is the margin, and mark both their points `is_violation`.
For adjacent points (bid 50, ask 55) and (bid 52, ask 57) there is no
violation (margin -5.5); for (50, 52) and (58, 62) there is one with margin
4.5 cents. -/
theorem mono_violation_law (d : MonotonicDirection) (points : List LadderPoint) :
    (checkMonotonicity d points).2.2.2 =
      (adjacentMargins d points).filter (fun m => decide (MONO_MIN_CENTS ≤ m)) ∧
    (checkMonotonicity d points).2.1 =
      (adjacentMargins d points).countP (fun m => decide (MONO_MIN_CENTS ≤ m)) ∧
    (∀ k, k < points.length →
      ((checkMonotonicity d points).1.getD k default).is_violation =
        ((points.getD k default).is_violation
          || (decide (0 < k) && violPairB d points (k - 1))
          || violPairB d points k)) ∧
    monoMargin .nonincreasing (monoExamplePoint 44 50 55) (monoExamplePoint 45 52 57) =
      -11 / 2 ∧
    monoMargin .nonincreasing (monoExamplePoint 44 50 52) (monoExamplePoint 45 58 62) =
      9 / 2 ∧
    checkMonotonicity .nonincreasing
        [monoExamplePoint 44 50 55, monoExamplePoint 45 52 57] =
      ([monoExamplePoint 44 50 55, monoExamplePoint 45 52 57], 0, 0, []) ∧
    checkMonotonicity .nonincreasing
        [monoExamplePoint 44 50 52, monoExamplePoint 45 58 62] =
      ([markViolation (monoExamplePoint 44 50 52), markViolation (monoExamplePoint 45 58 62)],
        1, 9 / 2, [9 / 2]) := by
  refine ⟨?_, ?_, ?_, ?_, ?_, ?_, ?_⟩
  · cases points with
    | nil => rfl
    | cons p rest => exact checkMonoGo_cands d rest p
  · cases points with
    | nil => rfl
    | cons p rest => exact checkMonoGo_count d rest p
  · intro k hk
    cases points with
    | nil => simp at hk
    | cons p rest => exact checkMonoGo_mark d rest p k hk
  · norm_num [monoMargin, monoExamplePoint, MONO_EPSILON, max_def]
  · norm_num [monoMargin, monoExamplePoint, MONO_EPSILON, max_def]
  · norm_num [checkMonotonicity, checkMonoGo, monoMargin, monoExamplePoint, MONO_EPSILON,
      MONO_MIN_CENTS, max_def]
  · norm_num [checkMonotonicity, checkMonoGo, monoMargin, monoExamplePoint, MONO_EPSILON,
      MONO_MIN_CENTS, max_def, markViolation]

/-- Witness for `mono_violation_law`: the marking characterization evaluated
at index 1 of the violating example pair. -/
theorem mono_violation_law_witness :
    ((checkMonotonicity .nonincreasing
        [monoExamplePoint 44 50 52, monoExamplePoint 45 58 62]).1.getD 1 default).is_violation =
      ((([monoExamplePoint 44 50 52, monoExamplePoint 45 58 62] : List LadderPoint).getD 1
          default).is_violation
        || (decide (0 < 1) &&
            violPairB .nonincreasing
              [monoExamplePoint 44 50 52, monoExamplePoint 45 58 62] (1 - 1))
        || violPairB .nonincreasing
            [monoExamplePoint 44 50 52, monoExamplePoint 45 58 62] 1) :=
  (mono_violation_law .nonincreasing
    [monoExamplePoint 44 50 52, monoExamplePoint 45 58 62]).2.2.1 1 (by norm_num)

/-! ## Theorems for deduplication and gating (claims C5, C7, C10) -/

theorem groupPairs_cons (p : LadderPoint) (rest : List LadderPoint) :
    groupPairs (p :: rest) =
      (p.line, p :: rest.filter (fun q => decide (q.line = p.line))) ::
        groupPairs (rest.filter (fun q => decide (q.line ≠ p.line))) := by
  rw [groupPairs]

theorem groupPairs_mem_of_group :
    ∀ (l : List LadderPoint) (g : ℚ × List LadderPoint), g ∈ groupPairs l →
      ∀ q ∈ g.2, q ∈ l ∧ q.line = g.1 := by
  intro l
  induction l using groupPairs.induct with
  | case1 => intro g hg; simp [groupPairs] at hg
  | case2 p rest ih =>
    intro g hg q hq
    rw [groupPairs_cons, List.mem_cons] at hg
    rcases hg with rfl | hg
    · rcases List.mem_cons.mp hq with rfl | hq
      · exact ⟨List.mem_cons_self _ _, rfl⟩
      · rw [List.mem_filter] at hq
        exact ⟨List.mem_cons_of_mem _ hq.1, of_decide_eq_true hq.2⟩
    · obtain ⟨hmem, hline⟩ := ih g hg q hq
      rw [List.mem_filter] at hmem
      exact ⟨List.mem_cons_of_mem _ hmem.1, hline⟩

theorem groupPairs_key_has_member :
    ∀ (l : List LadderPoint) (g : ℚ × List LadderPoint), g ∈ groupPairs l →
      ∃ q ∈ l, q.line = g.1 := by
  intro l
  induction l using groupPairs.induct with
  | case1 => intro g hg; simp [groupPairs] at hg
  | case2 p rest ih =>
    intro g hg
    rw [groupPairs_cons, List.mem_cons] at hg
    rcases hg with rfl | hg
    · exact ⟨p, List.mem_cons_self _ _, rfl⟩
    · obtain ⟨q, hq, hline⟩ := ih g hg
      rw [List.mem_filter] at hq
      exact ⟨q, List.mem_cons_of_mem _ hq.1, hline⟩

theorem groupPairs_complete :
    ∀ (l : List LadderPoint) (g : ℚ × List LadderPoint), g ∈ groupPairs l →
      ∀ q ∈ l, q.line = g.1 → q ∈ g.2 := by
  intro l
  induction l using groupPairs.induct with
  | case1 => intro g hg; simp [groupPairs] at hg
  | case2 p rest ih =>
    intro g hg q hq hline
    rw [groupPairs_cons, List.mem_cons] at hg
    rcases hg with rfl | hg
    · rcases List.mem_cons.mp hq with rfl | hq
      · exact List.mem_cons_self _ _
      · refine List.mem_cons_of_mem _ ?_
        rw [List.mem_filter]
        exact ⟨hq, decide_eq_true hline⟩
    · have hne : g.1 ≠ p.line := by
        obtain ⟨q2, hq2, hl2⟩ := groupPairs_key_has_member _ g hg
        rw [List.mem_filter] at hq2
        intro heq
        exact (of_decide_eq_true hq2.2) (hl2.trans heq)
      rcases List.mem_cons.mp hq with rfl | hq
      · exact absurd hline.symm (by simpa using hne)
      · refine ih g hg q ?_ hline
        rw [List.mem_filter]
        refine ⟨hq, decide_eq_true ?_⟩
        rw [hline]
        exact hne

theorem groupPairs_keys_nodup :
    ∀ l : List LadderPoint, ((groupPairs l).map Prod.fst).Nodup := by
  intro l
  induction l using groupPairs.induct with
  | case1 => simp [groupPairs]
  | case2 p rest ih =>
    rw [groupPairs_cons]
    simp only [List.map_cons, List.nodup_cons]
    refine ⟨?_, ih⟩
    intro hmem
    rw [List.mem_map] at hmem
    obtain ⟨g, hg, hfst⟩ := hmem
    obtain ⟨q, hq, hline⟩ := groupPairs_key_has_member _ g hg
    rw [List.mem_filter] at hq
    exact (of_decide_eq_true hq.2) (hline.trans hfst)

theorem length_filter_line_compl (l : List LadderPoint) (pl : ℚ) :
    (l.filter (fun q => decide (q.line = pl))).length +
      (l.filter (fun q => decide (q.line ≠ pl))).length = l.length := by
  induction l with
  | nil => simp
  | cons q rest ih =>
    by_cases h : q.line = pl <;>
      simp [List.filter_cons, h, ← ih] <;> omega

theorem groupPairs_sum_lengths :
    ∀ l : List LadderPoint, ((groupPairs l).map (fun g => g.2.length)).sum = l.length := by
  intro l
  induction l using groupPairs.induct with
  | case1 => simp [groupPairs]
  | case2 p rest ih =>
    rw [groupPairs_cons]
    simp only [List.map_cons, List.sum_cons, List.length_cons, ih]
    rw [← length_filter_line_compl rest p.line]
    omega

theorem groupPairs_group_ne_nil :
    ∀ (l : List LadderPoint) (g : ℚ × List LadderPoint), g ∈ groupPairs l → g.2 ≠ [] := by
  intro l
  induction l using groupPairs.induct with
  | case1 => intro g hg; simp [groupPairs] at hg
  | case2 p rest ih =>
    intro g hg
    rw [groupPairs_cons, List.mem_cons] at hg
    rcases hg with rfl | hg
    · simp
    · exact ih g hg

theorem dedupeOne_of_long (pts : List LadderPoint) (h : 1 < pts.length) :
    ∃ s srest, List.insertionSort liqGe pts = s :: srest ∧
      dedupeOne pts =
        { s with is_primary := true } :: srest.map (fun q => { q with is_primary := false }) ∧
      s ∈ pts ∧ (∀ q ∈ pts, minLiq q ≤ minLiq s) := by
  obtain ⟨s, srest, hs⟩ : ∃ s srest, List.insertionSort liqGe pts = s :: srest := by
    cases hsort : List.insertionSort liqGe pts with
    | nil =>
      exfalso
      have := (List.perm_insertionSort liqGe pts).length_eq
      rw [hsort] at this
      simp at this
      omega
    | cons s srest => exact ⟨s, srest, rfl⟩
  refine ⟨s, srest, hs, ?_, ?_, ?_⟩
  · unfold dedupeOne
    rw [if_pos h, hs]
    rfl
  · exact (List.perm_insertionSort liqGe pts).mem_iff.mp (hs ▸ List.mem_cons_self s srest)
  · intro q hq
    have hq2 : q ∈ s :: srest := hs ▸ (List.perm_insertionSort liqGe pts).mem_iff.mpr hq
    rcases List.mem_cons.mp hq2 with rfl | hq2
    · exact le_refl _
    · have hsorted : List.Sorted liqGe (s :: srest) :=
        hs ▸ List.sorted_insertionSort liqGe pts
      exact List.rel_of_sorted_cons hsorted q hq2

theorem dedupeOne_head_facts (pts : List LadderPoint) (prim : LadderPoint)
    (rest' : List LadderPoint) (h : dedupeOne pts = prim :: rest') :
    ∃ s ∈ pts, prim.line = s.line ∧ minLiq prim = minLiq s ∧
      prim.is_excluded = s.is_excluded ∧ prim.market_ticker = s.market_ticker ∧
      (∀ q ∈ pts, minLiq q ≤ minLiq s) := by
  by_cases hl : 1 < pts.length
  · obtain ⟨s, srest, -, hded, hmem, hmax⟩ := dedupeOne_of_long pts hl
    rw [h] at hded
    obtain ⟨hhead, -⟩ := List.cons.injEq .. ▸ hded
    refine ⟨s, hmem, ?_, ?_, ?_, ?_, hmax⟩ <;> simp [hhead, minLiq]
  · have hded : pts = prim :: rest' := by
      unfold dedupeOne at h
      rwa [if_neg hl] at h
    have hrest : rest' = [] := by
      rw [hded] at hl
      simp only [List.length_cons, not_lt] at hl
      have : rest'.length = 0 := by omega
      exact List.length_eq_zero.mp this
    refine ⟨prim, hded ▸ List.mem_cons_self _ _, rfl, rfl, rfl, rfl, ?_⟩
    intro q hq
    rw [hded, hrest] at hq
    rcases List.mem_cons.mp hq with rfl | hq
    · exact le_refl _
    · simp at hq

theorem analysedPoints_mem (groups : List (ℚ × List LadderPoint)) (x : LadderPoint) :
    x ∈ analysedPoints groups ↔
      ∃ g ∈ groups, ∃ rest', dedupeOne g.2 = x :: rest' ∧
        x.is_primary = true ∧ x.is_excluded = false := by
  unfold analysedPoints
  rw [List.mem_filterMap]
  constructor
  · rintro ⟨g, hg, hf⟩
    refine ⟨g, hg, ?_⟩
    rcases hded : dedupeOne g.2 with _ | ⟨prim, rest'⟩
    · rw [hded] at hf; simp [selectPrimary] at hf
    · rw [hded] at hf
      simp only [selectPrimary] at hf
      by_cases hcond : prim.is_primary = true ∧ prim.is_excluded = false
      · rw [if_pos hcond] at hf
        obtain rfl := Option.some.inj hf
        exact ⟨rest', rfl, hcond⟩
      · rw [if_neg hcond] at hf
        simp at hf
  · rintro ⟨g, hg, rest', hded, hprim, hexc⟩
    refine ⟨g, hg, ?_⟩
    rw [hded]
    simp only [selectPrimary]
    rw [if_pos ⟨hprim, hexc⟩]

theorem analysedPoints_line_mem_keys (groups : List (ℚ × List LadderPoint))
    (hline : ∀ g ∈ groups, ∀ x rest', dedupeOne g.2 = x :: rest' → x.line = g.1) :
    ∀ y ∈ analysedPoints groups, y.line ∈ groups.map Prod.fst := by
  intro y hy
  obtain ⟨g, hg, rest', hded, -, -⟩ := (analysedPoints_mem groups y).mp hy
  rw [List.mem_map]
  exact ⟨g, hg, (hline g hg y rest' hded).symm⟩

theorem analysedPoints_lines_nodup (groups : List (ℚ × List LadderPoint))
    (hkeys : (groups.map Prod.fst).Nodup)
    (hline : ∀ g ∈ groups, ∀ x rest', dedupeOne g.2 = x :: rest' → x.line = g.1) :
    ((analysedPoints groups).map (fun p => p.line)).Nodup := by
  induction groups with
  | nil => simp [analysedPoints]
  | cons g gs ih =>
    simp only [List.map_cons, List.nodup_cons] at hkeys
    have hline' : ∀ g2 ∈ gs, ∀ x rest', dedupeOne g2.2 = x :: rest' → x.line = g2.1 :=
      fun g2 hg2 => hline g2 (List.mem_cons_of_mem _ hg2)
    have ihres := ih hkeys.2 hline'
    unfold analysedPoints
    rw [List.filterMap_cons]
    rcases hded : dedupeOne g.2 with _ | ⟨prim, rest'⟩
    · simp only [hded, selectPrimary]
      exact ihres
    · simp only [hded, selectPrimary]
      by_cases hcond : prim.is_primary = true ∧ prim.is_excluded = false
      · rw [if_pos hcond]
        simp only [List.map_cons, List.nodup_cons]
        refine ⟨?_, ihres⟩
        intro hmem
        rw [List.mem_map] at hmem
        obtain ⟨y, hy, hyline⟩ := hmem
        have h1 : prim.line = g.1 := hline g (List.mem_cons_self _ _) prim rest' hded
        have h2 : y.line ∈ gs.map Prod.fst :=
          analysedPoints_line_mem_keys gs hline' y hy
        rw [hyline, h1] at h2
        exact hkeys.1 h2
      · rw [if_neg hcond]
        exact ihres

theorem groupPairs_nil : groupPairs [] = [] := by rw [groupPairs]

theorem groups_dedupe_line (raw : List LadderPoint) :
    ∀ g ∈ groupPairs raw, ∀ (x : LadderPoint) (rest' : List LadderPoint),
      dedupeOne g.2 = x :: rest' → x.line = g.1 := by
  intro g hg x rest' hded
  obtain ⟨s, hs, hline, -, -, -, -⟩ := dedupeOne_head_facts g.2 x rest' hded
  rw [hline]
  exact (groupPairs_mem_of_group raw g hg s hs).2

theorem buildLadder_points (markets : List EStats) :
    (buildLadder markets).points =
      List.insertionSort lineLe (analysedPoints (groupPairs (rawLadderPoints markets))) := rfl

theorem buildLadder_dropped (markets : List EStats) :
    (buildLadder markets).diagnostics.duplicates_dropped =
      duplicatesDropped (groupPairs (rawLadderPoints markets)) := rfl

theorem sum_length_ge_count (gs : List (ℚ × List LadderPoint))
    (h : ∀ g ∈ gs, g.2 ≠ []) :
    gs.length ≤ (gs.map (fun g => g.2.length)).sum := by
  induction gs with
  | nil => simp
  | cons g gs ih =>
    have hg : 1 ≤ g.2.length := List.length_pos.mpr (h g (List.mem_cons_self _ _))
    have := ih (fun g2 hg2 => h g2 (List.mem_cons_of_mem _ hg2))
    simp only [List.map_cons, List.sum_cons, List.length_cons]
    omega

theorem sum_length_pred (gs : List (ℚ × List LadderPoint))
    (h : ∀ g ∈ gs, g.2 ≠ []) :
    (gs.map (fun g => g.2.length - 1)).sum = (gs.map (fun g => g.2.length)).sum - gs.length := by
  induction gs with
  | nil => simp
  | cons g gs ih =>
    have hg : 1 ≤ g.2.length := List.length_pos.mpr (h g (List.mem_cons_self _ _))
    have hsum := sum_length_ge_count gs (fun g2 hg2 => h g2 (List.mem_cons_of_mem _ hg2))
    have hrec := ih (fun g2 hg2 => h g2 (List.mem_cons_of_mem _ hg2))
    simp only [List.map_cons, List.sum_cons, List.length_cons, hrec]
    omega

/-- A ladder point for the concrete deduplication example: only the line and
the depths (hence `min(depth_bid, depth_ask)`) matter. -/
def dedupExamplePoint (line depth : ℚ) (ticker : String) : LadderPoint :=
  { line := line, side := "BAL", market_ticker := ticker,
    bid_prob := 0, ask_prob := 1, mid_prob := 0,
    depth_bid := some depth, depth_ask := some depth, volume := some 10000,
    spread_cents := some 2 }

/-- Claim C5: after deduplication the analysed points of a ladder carry
pairwise distinct lines; each analysed point is primary and has the highest
`min(depth_bid, depth_ask)` among the raw points of its line;
`duplicates_dropped` equals the total number of dropped siblings (raw points
minus distinct lines); a group of duplicates is sorted by descending
liquidity, its head marked `is_primary` and the siblings marked
`is_primary = false`.  For points with lines [3, 3, 5] and min-depths
[500, 2000, 1000], the survivors are the depth-2000 point at line 3 and the
line-5 point, with `duplicates_dropped = 1`. -/
theorem dedup_law (markets : List EStats) (pts : List LadderPoint) :
    ((buildLadder markets).points.map (fun p => p.line)).Nodup ∧
    (∀ p ∈ (buildLadder markets).points,
      p.is_primary = true ∧
        ∀ q ∈ rawLadderPoints markets, q.line = p.line → minLiq q ≤ minLiq p) ∧
    (buildLadder markets).diagnostics.duplicates_dropped =
      (rawLadderPoints markets).length - (groupPairs (rawLadderPoints markets)).length ∧
    (1 < pts.length →
      ∃ s srest, List.insertionSort liqGe pts = s :: srest ∧
        dedupeOne pts =
          { s with is_primary := true } ::
            srest.map (fun q => { q with is_primary := false }) ∧
        (∀ q ∈ srest.map (fun q => { q with is_primary := false }), q.is_primary = false) ∧
        (∀ q ∈ pts, minLiq q ≤ minLiq s)) ∧
    analysedPoints (groupPairs
        [dedupExamplePoint 3 500 "A", dedupExamplePoint 3 2000 "B",
          dedupExamplePoint 5 1000 "C"]) =
      [dedupExamplePoint 3 2000 "B", dedupExamplePoint 5 1000 "C"] ∧
    duplicatesDropped (groupPairs
        [dedupExamplePoint 3 500 "A", dedupExamplePoint 3 2000 "B",
          dedupExamplePoint 5 1000 "C"]) = 1 := by
  have hgroups : groupPairs
      [dedupExamplePoint 3 500 "A", dedupExamplePoint 3 2000 "B",
        dedupExamplePoint 5 1000 "C"] =
      [(3, [dedupExamplePoint 3 500 "A", dedupExamplePoint 3 2000 "B"]),
        (5, [dedupExamplePoint 5 1000 "C"])] := by
    rw [groupPairs_cons]
    norm_num [dedupExamplePoint]
    rw [groupPairs_cons]
    norm_num [groupPairs_nil]
  refine ⟨?_, ?_, ?_, ?_, ?_, ?_⟩
  · rw [buildLadder_points]
    have hperm := (List.perm_insertionSort lineLe
      (analysedPoints (groupPairs (rawLadderPoints markets)))).map (fun p => p.line)
    rw [hperm.nodup_iff]
    exact analysedPoints_lines_nodup _ (groupPairs_keys_nodup _)
      (groups_dedupe_line (rawLadderPoints markets))
  · intro p hp
    rw [buildLadder_points] at hp
    have hp2 : p ∈ analysedPoints (groupPairs (rawLadderPoints markets)) :=
      (List.perm_insertionSort lineLe _).mem_iff.mp hp
    obtain ⟨g, hg, rest', hded, hprim, hexc⟩ := (analysedPoints_mem _ p).mp hp2
    refine ⟨hprim, ?_⟩
    intro q hq hline
    obtain ⟨s, hs, hpline, hpliq, -, -, hmax⟩ := dedupeOne_head_facts g.2 p rest' hded
    have hql : q.line = g.1 := by
      rw [hline, hpline]
      exact (groupPairs_mem_of_group _ g hg s hs).2
    have hqg : q ∈ g.2 := groupPairs_complete _ g hg q hq hql
    rw [hpliq]
    exact hmax q hqg
  · rw [buildLadder_dropped]
    unfold duplicatesDropped
    rw [sum_length_pred _ (groupPairs_group_ne_nil (rawLadderPoints markets)),
      groupPairs_sum_lengths]
  · intro hlen
    obtain ⟨s, srest, hs, hded, hmem, hmax⟩ := dedupeOne_of_long pts hlen
    refine ⟨s, srest, hs, hded, ?_, hmax⟩
    intro q hq
    rw [List.mem_map] at hq
    obtain ⟨q0, -, rfl⟩ := hq
    rfl
  · rw [hgroups]
    norm_num [analysedPoints, selectPrimary, dedupeOne, markPrimaries, List.insertionSort,
      List.orderedInsert, liqGe, minLiq, dedupExamplePoint, List.filterMap_cons,
      List.filterMap_nil]
  · rw [hgroups]
    norm_num [duplicatesDropped]

/-- Witness for `dedup_law`: the deduplication of a concrete two-point group
sorts the depth-2000 point first and marks the sibling non-primary. -/
theorem dedup_law_witness :
    ∃ s srest,
      List.insertionSort liqGe
          [dedupExamplePoint 3 500 "A", dedupExamplePoint 3 2000 "B"] = s :: srest ∧
      dedupeOne [dedupExamplePoint 3 500 "A", dedupExamplePoint 3 2000 "B"] =
        { s with is_primary := true } ::
          srest.map (fun q => { q with is_primary := false }) ∧
      (∀ q ∈ srest.map (fun q => { q with is_primary := false }), q.is_primary = false) ∧
      (∀ q ∈ [dedupExamplePoint 3 500 "A", dedupExamplePoint 3 2000 "B"],
        minLiq q ≤ minLiq s) :=
  (dedup_law [] [dedupExamplePoint 3 500 "A", dedupExamplePoint 3 2000 "B"]).2.2.2.1
    (by norm_num)

theorem mkRawPoint_excluded_iff (m : EStats) :
    (mkRawPoint m).is_excluded = true ↔
      ((statMinDepth m < MIN_LIQUIDITY_DEPTH ∧ m.volume.getD 0 < MIN_LIQUIDITY_VOLUME) ∨
        MAX_SPREAD_CENTS < statSpread m ∨ MAX_STALE_MS < statMaxAge m) := by
  by_cases h1 : statMinDepth m < MIN_LIQUIDITY_DEPTH ∧ m.volume.getD 0 < MIN_LIQUIDITY_VOLUME <;>
    by_cases h2 : MAX_SPREAD_CENTS < statSpread m <;>
      by_cases h3 : MAX_STALE_MS < statMaxAge m <;>
        simp [mkRawPoint, h1, h2, h3]

theorem mkRawPoint_reason_low (m : EStats) :
    (mkRawPoint m).exclude_reason = some ExcludeReason.low_liquidity ↔
      (statMinDepth m < MIN_LIQUIDITY_DEPTH ∧ m.volume.getD 0 < MIN_LIQUIDITY_VOLUME) := by
  by_cases h1 : statMinDepth m < MIN_LIQUIDITY_DEPTH ∧ m.volume.getD 0 < MIN_LIQUIDITY_VOLUME <;>
    by_cases h2 : MAX_SPREAD_CENTS < statSpread m <;>
      by_cases h3 : MAX_STALE_MS < statMaxAge m <;>
        simp [mkRawPoint, h1, h2, h3]

theorem mkRawPoint_reason_wide (m : EStats) :
    (mkRawPoint m).exclude_reason = some ExcludeReason.wide_spread ↔
      (¬(statMinDepth m < MIN_LIQUIDITY_DEPTH ∧ m.volume.getD 0 < MIN_LIQUIDITY_VOLUME) ∧
        MAX_SPREAD_CENTS < statSpread m) := by
  by_cases h1 : statMinDepth m < MIN_LIQUIDITY_DEPTH ∧ m.volume.getD 0 < MIN_LIQUIDITY_VOLUME <;>
    by_cases h2 : MAX_SPREAD_CENTS < statSpread m <;>
      by_cases h3 : MAX_STALE_MS < statMaxAge m <;>
        simp [mkRawPoint, h1, h2, h3]

theorem mkRawPoint_reason_stale (m : EStats) :
    (mkRawPoint m).exclude_reason = some ExcludeReason.stale ↔
      (¬(statMinDepth m < MIN_LIQUIDITY_DEPTH ∧ m.volume.getD 0 < MIN_LIQUIDITY_VOLUME) ∧
        ¬MAX_SPREAD_CENTS < statSpread m ∧ MAX_STALE_MS < statMaxAge m) := by
  by_cases h1 : statMinDepth m < MIN_LIQUIDITY_DEPTH ∧ m.volume.getD 0 < MIN_LIQUIDITY_VOLUME <;>
    by_cases h2 : MAX_SPREAD_CENTS < statSpread m <;>
      by_cases h3 : MAX_STALE_MS < statMaxAge m <;>
        simp [mkRawPoint, h1, h2, h3]

theorem countP_rawLadderPoints (markets : List EStats) (p : LadderPoint → Bool) :
    (rawLadderPoints markets).countP p =
      (markets.filter (fun m => m.line ≠ none)).countP (fun m => p (mkRawPoint m)) := by
  unfold rawLadderPoints
  rw [(List.perm_insertionSort lineLe _).countP_eq, List.countP_map]
  rfl

/-- The two concrete enriched stats records of the gating example: "A"
passes every gate, "B" fails the spread gate (spread 10 cents). -/
def statsGood : EStats :=
  { market_ticker := "A", line := some 3, side := some "BAL",
    best_bid := some 48, best_ask := some 50, mid := some 49,
    sum_bid_top5 := some 3000, sum_ask_top5 := some 3000, volume := some 10000,
    spread := some 2, last_ticker_age_ms := some 100, last_orderbook_age_ms := some 100 }

def statsWide : EStats :=
  { market_ticker := "B", line := some 5, side := some "BAL",
    best_bid := some 40, best_ask := some 50, mid := some 45,
    sum_bid_top5 := some 3000, sum_ask_top5 := some 3000, volume := some 10000,
    spread := some 10, last_ticker_age_ms := some 100, last_orderbook_age_ms := some 100 }

theorem buildLadder_gating_example :
    (buildLadder [statsGood, statsWide]).points = [mkRawPoint statsGood] := by
  have hraw : rawLadderPoints [statsGood, statsWide] =
      [mkRawPoint statsGood, mkRawPoint statsWide] := by
    unfold rawLadderPoints
    norm_num [statsGood, statsWide, List.insertionSort, List.orderedInsert, lineLe, mkRawPoint,
      statMinDepth, statSpread, statMaxAge, MIN_LIQUIDITY_DEPTH, MIN_LIQUIDITY_VOLUME,
      MAX_SPREAD_CENTS, MAX_STALE_MS]
  have hgroups : groupPairs [mkRawPoint statsGood, mkRawPoint statsWide] =
      [(3, [mkRawPoint statsGood]), (5, [mkRawPoint statsWide])] := by
    rw [groupPairs_cons]
    norm_num [mkRawPoint, statsGood, statsWide, statMinDepth, statSpread, statMaxAge,
      MIN_LIQUIDITY_DEPTH, MIN_LIQUIDITY_VOLUME, MAX_SPREAD_CENTS, MAX_STALE_MS]
    rw [groupPairs_cons]
    norm_num [groupPairs_nil, mkRawPoint, statsGood, statsWide, statMinDepth, statSpread,
      statMaxAge, MIN_LIQUIDITY_DEPTH, MIN_LIQUIDITY_VOLUME, MAX_SPREAD_CENTS, MAX_STALE_MS]
  rw [buildLadder_points, hraw, hgroups]
  norm_num [analysedPoints, selectPrimary, dedupeOne, List.filterMap_cons, List.filterMap_nil,
    List.insertionSort, List.orderedInsert, lineLe, mkRawPoint, statsGood, statsWide,
    statMinDepth, statSpread, statMaxAge, MIN_LIQUIDITY_DEPTH, MIN_LIQUIDITY_VOLUME,
    MAX_SPREAD_CENTS, MAX_STALE_MS]

/-- Claim C7 (corrected): a point fails the gates exactly under the claimed
conditions, with the corresponding reason (liquidity checked first, then
spread, then staleness); it is excluded from analysis and counted in the
diagnostics, but it is *omitted from* the ladder points list, which keeps
only primary, non-excluded points. -/
theorem gating_law (markets : List EStats) (m : EStats) :
    ((mkRawPoint m).is_excluded = true ↔
      ((statMinDepth m < MIN_LIQUIDITY_DEPTH ∧ m.volume.getD 0 < MIN_LIQUIDITY_VOLUME) ∨
        MAX_SPREAD_CENTS < statSpread m ∨ MAX_STALE_MS < statMaxAge m)) ∧
    ((mkRawPoint m).exclude_reason = some ExcludeReason.low_liquidity ↔
      (statMinDepth m < MIN_LIQUIDITY_DEPTH ∧ m.volume.getD 0 < MIN_LIQUIDITY_VOLUME)) ∧
    ((mkRawPoint m).exclude_reason = some ExcludeReason.wide_spread ↔
      (¬(statMinDepth m < MIN_LIQUIDITY_DEPTH ∧ m.volume.getD 0 < MIN_LIQUIDITY_VOLUME) ∧
        MAX_SPREAD_CENTS < statSpread m)) ∧
    ((mkRawPoint m).exclude_reason = some ExcludeReason.stale ↔
      (¬(statMinDepth m < MIN_LIQUIDITY_DEPTH ∧ m.volume.getD 0 < MIN_LIQUIDITY_VOLUME) ∧
        ¬MAX_SPREAD_CENTS < statSpread m ∧ MAX_STALE_MS < statMaxAge m)) ∧
    (∀ p ∈ (buildLadder markets).points, p.is_excluded = false) ∧
    (buildLadder markets).diagnostics.excluded_by_liquidity =
      (markets.filter (fun m => m.line ≠ none)).countP
        (fun m => decide (statMinDepth m < MIN_LIQUIDITY_DEPTH ∧
          m.volume.getD 0 < MIN_LIQUIDITY_VOLUME)) ∧
    (buildLadder markets).diagnostics.excluded_by_spread =
      (markets.filter (fun m => m.line ≠ none)).countP
        (fun m => decide (¬(statMinDepth m < MIN_LIQUIDITY_DEPTH ∧
          m.volume.getD 0 < MIN_LIQUIDITY_VOLUME) ∧ MAX_SPREAD_CENTS < statSpread m)) ∧
    (buildLadder markets).diagnostics.excluded_by_staleness =
      (markets.filter (fun m => m.line ≠ none)).countP
        (fun m => decide (¬(statMinDepth m < MIN_LIQUIDITY_DEPTH ∧
          m.volume.getD 0 < MIN_LIQUIDITY_VOLUME) ∧ ¬MAX_SPREAD_CENTS < statSpread m ∧
          MAX_STALE_MS < statMaxAge m)) := by
  refine ⟨mkRawPoint_excluded_iff m, mkRawPoint_reason_low m, mkRawPoint_reason_wide m,
    mkRawPoint_reason_stale m, ?_, ?_, ?_, ?_⟩
  · intro p hp
    rw [buildLadder_points] at hp
    obtain ⟨-, -, -, -, -, hexc⟩ :=
      (analysedPoints_mem _ p).mp ((List.perm_insertionSort lineLe _).mem_iff.mp hp)
    exact hexc
  · show (rawLadderPoints markets).countP _ = _
    rw [countP_rawLadderPoints]
    refine List.countP_congr ?_
    intro m2 _
    simp only [decide_eq_true_eq]
    exact mkRawPoint_reason_low m2
  · show (rawLadderPoints markets).countP _ = _
    rw [countP_rawLadderPoints]
    refine List.countP_congr ?_
    intro m2 _
    simp only [decide_eq_true_eq]
    exact mkRawPoint_reason_wide m2
  · show (rawLadderPoints markets).countP _ = _
    rw [countP_rawLadderPoints]
    refine List.countP_congr ?_
    intro m2 _
    simp only [decide_eq_true_eq]
    exact mkRawPoint_reason_stale m2

/-- Witness for `gating_law`: the surviving point of the concrete example is
not excluded. -/
theorem gating_law_witness : (mkRawPoint statsGood).is_excluded = false :=
  (gating_law [statsGood, statsWide] statsGood).2.2.2.2.1 (mkRawPoint statsGood)
    (by rw [buildLadder_gating_example]; exact List.mem_cons_self _ _)

/-- Counterexample to claim C7 as stated: the wide-spread market "B" is
excluded with reason wide_spread but does *not* appear in the ladder points
list (which holds only the market "A" point), contradicting "kept in the
ladder points list, marked is_excluded". -/
theorem gating_law_counterexample :
    (mkRawPoint statsWide).is_excluded = true ∧
    (mkRawPoint statsWide).exclude_reason = some ExcludeReason.wide_spread ∧
    (buildLadder [statsGood, statsWide]).points.map (fun p => p.market_ticker) = ["A"] := by
  refine ⟨by decide, by decide, ?_⟩
  rw [buildLadder_gating_example]
  simp [mkRawPoint, statsGood]

/-- A stats record with no quote at all but ample volume: the liquidity gate
passes (volume 10000), the defaulted spread of 100 cents trips the spread
gate. -/
def statsNoQuote : EStats :=
  { market_ticker := "D", line := some 4, side := some "Over",
    best_bid := none, best_ask := none, mid := none,
    sum_bid_top5 := none, sum_ask_top5 := none, volume := some 10000,
    spread := none, last_ticker_age_ms := none, last_orderbook_age_ms := none }

/-- A stats record with no quote, no depth and no volume: both the liquidity
gate and the spread gate fail, and the liquidity gate is checked first. -/
def statsBare : EStats :=
  { market_ticker := "E", line := some 7, side := none,
    best_bid := none, best_ask := none, mid := none,
    sum_bid_top5 := none, sum_ask_top5 := none, volume := none,
    spread := none, last_ticker_age_ms := none, last_orderbook_age_ms := none }

/-- Claim C10 (corrected): a ladder point built from stats lacking a best
bid, best ask or mid defaults to `bid_prob = 0`, `ask_prob = 1`,
`mid_prob = 0.5`; a missing spread counts as 100 cents, so the point is
always excluded rather than analysed — with reason wide_spread when the
liquidity gate passes, and with reason low_liquidity otherwise (the
liquidity gate is checked first). -/
theorem default_point_law (m : EStats) :
    (m.best_bid = none → (mkRawPoint m).bid_prob = 0) ∧
    (m.best_ask = none → (mkRawPoint m).ask_prob = 1) ∧
    (m.mid = none → (mkRawPoint m).mid_prob = 1 / 2) ∧
    (m.spread = none → (mkRawPoint m).spread_cents = some 100) ∧
    (m.spread = none → (mkRawPoint m).is_excluded = true) ∧
    (m.spread = none →
      ¬(statMinDepth m < MIN_LIQUIDITY_DEPTH ∧ m.volume.getD 0 < MIN_LIQUIDITY_VOLUME) →
      (mkRawPoint m).exclude_reason = some ExcludeReason.wide_spread) := by
  have hspread : m.spread = none → MAX_SPREAD_CENTS < statSpread m := by
    intro h
    rw [statSpread, h]
    norm_num [MAX_SPREAD_CENTS]
  refine ⟨?_, ?_, ?_, ?_, ?_, ?_⟩
  · intro h
    simp [mkRawPoint, h]
  · intro h
    simp [mkRawPoint, h]
  · intro h
    simp [mkRawPoint, h]
    norm_num
  · intro h
    simp [mkRawPoint, statSpread, h]
  · intro h
    rw [mkRawPoint_excluded_iff]
    by_cases hliq : statMinDepth m < MIN_LIQUIDITY_DEPTH ∧ m.volume.getD 0 < MIN_LIQUIDITY_VOLUME
    · exact Or.inl hliq
    · exact Or.inr (Or.inl (hspread h))
  · intro h hliq
    rw [mkRawPoint_reason_wide]
    exact ⟨hliq, hspread h⟩

/-- Witness for `default_point_law` at the concrete no-quote record. -/
theorem default_point_law_witness :
    (mkRawPoint statsNoQuote).bid_prob = 0 ∧
    (mkRawPoint statsNoQuote).ask_prob = 1 ∧
    (mkRawPoint statsNoQuote).mid_prob = 1 / 2 ∧
    (mkRawPoint statsNoQuote).exclude_reason = some ExcludeReason.wide_spread :=
  ⟨(default_point_law statsNoQuote).1 rfl,
   (default_point_law statsNoQuote).2.1 rfl,
   (default_point_law statsNoQuote).2.2.1 rfl,
   (default_point_law statsNoQuote).2.2.2.2.2 rfl (by decide)⟩

/-- Counterexample to claim C10 as stated: a record lacking bid, ask, mid
and spread whose depth and volume are also missing is gated out with reason
low_liquidity, not wide_spread, because the liquidity gate is checked
first. -/
theorem default_point_law_counterexample :
    statsBare.spread = none ∧
    (mkRawPoint statsBare).exclude_reason = some ExcludeReason.low_liquidity ∧
    some ExcludeReason.low_liquidity ≠ some ExcludeReason.wide_spread :=
  ⟨rfl, by decide, by decide⟩

/-! ## Theorems for cross-ladder arbitrage (claim C6) -/

theorem pairArb_mem (l1 l2 : Ladder) (now : ℤ) (c : ArbSignal) :
    c ∈ pairArb l1 l2 now ↔
      (l1.ladder_type = l2.ladder_type ∧ isOpposing l1 l2 ∧
        ∃ p1 ∈ l1.points, ∃ p2, findMirror l1.ladder_type l2 p1 = some p2 ∧
          101 / 100 < p1.bid_prob + p2.bid_prob ∧
          c = mkArbSignal l1 p1 p2 (p1.bid_prob + p2.bid_prob) now) := by
  unfold pairArb
  by_cases ht : l1.ladder_type ≠ l2.ladder_type
  · rw [if_pos ht]
    simp [ht]
  · rw [if_neg ht, not_ne_iff] at *
    by_cases ho : isOpposing l1 l2
    · rw [if_neg (not_not_intro ho), List.mem_flatMap]
      constructor
      · rintro ⟨p1, hp1, hc⟩
        cases hfm : findMirror l1.ladder_type l2 p1 with
        | none => rw [hfm] at hc; simp at hc
        | some p2 =>
          rw [hfm] at hc
          simp only at hc
          by_cases hsum : 101 / 100 < p1.bid_prob + p2.bid_prob
          · rw [if_pos hsum] at hc
            rw [List.mem_singleton] at hc
            exact ⟨ht, ho, p1, hp1, p2, hfm, hsum, hc⟩
          · rw [if_neg hsum] at hc
            simp at hc
      · rintro ⟨-, -, p1, hp1, p2, hfm, hsum, rfl⟩
        refine ⟨p1, hp1, ?_⟩
        rw [hfm]
        simp only [if_pos hsum]
        exact List.mem_singleton_self _
    · rw [if_pos ho]
      simp [ho]

/-- The Over@45 point of the concrete arbitrage example (bid 58 cents). -/
def overPoint : LadderPoint :=
  { line := 45, side := "Over", market_ticker := "OV45",
    bid_prob := 58 / 100, ask_prob := 62 / 100, mid_prob := 60 / 100,
    depth_bid := some 3000, depth_ask := some 3000, volume := some 10000,
    spread_cents := some 4 }

/-- The Under@45 point of the concrete arbitrage example (bid 45 cents). -/
def underPoint : LadderPoint :=
  { line := 45, side := "Under", market_ticker := "UN45",
    bid_prob := 45 / 100, ask_prob := 49 / 100, mid_prob := 47 / 100,
    depth_bid := some 3000, depth_ask := some 3000, volume := some 10000,
    spread_cents := some 4 }

def overLadder : Ladder :=
  { ladder_key := "g|total|Over|total_over", ladder_type := .total,
    team_or_direction := "Over", points := [overPoint] }

def underLadder : Ladder :=
  { ladder_key := "g|total|Under|total_under", ladder_type := .total,
    team_or_direction := "Under", points := [underPoint] }

/-- Claim C6: a SUM_GT_1 candidate is produced exactly for an ordered ladder
pair of the same type and opposing sides and a point of the first whose
mirror exists in the second (negated line for spreads, equal line for
totals, tolerance 0.01) with bid probabilities summing above 1.01; its
magnitude is `(sum - 1) * 100` cents, confidence high, severity
`magnitude * 10`, related tickers `[p1, p2]`.  For the total pair Over@45
bid 58 and Under@45 bid 45 exactly one candidate is produced, with magnitude
3 cents. -/
theorem cross_ladder_arb_law (ladders : List Ladder) (l1 : Ladder)
    (p1 p2 : LadderPoint) (s : ℚ) (now : ℤ) (c : ArbSignal) :
    (c ∈ detectCrossLadderArb ladders now ↔
      ∃ pr ∈ pairsAfter ladders,
        pr.1.ladder_type = pr.2.ladder_type ∧ isOpposing pr.1 pr.2 ∧
        ∃ q1 ∈ pr.1.points, ∃ q2, findMirror pr.1.ladder_type pr.2 q1 = some q2 ∧
          101 / 100 < q1.bid_prob + q2.bid_prob ∧
          c = mkArbSignal pr.1 q1 q2 (q1.bid_prob + q2.bid_prob) now) ∧
    (mkArbSignal l1 p1 p2 s now).type = SignalType.SUM_GT_1 ∧
    (mkArbSignal l1 p1 p2 s now).confidence = SignalConfidence.high ∧
    (mkArbSignal l1 p1 p2 s now).magnitude = (s - 1) * 100 ∧
    (mkArbSignal l1 p1 p2 s now).severity_score = (s - 1) * 100 * 10 ∧
    (mkArbSignal l1 p1 p2 s now).related_tickers = [p1.market_ticker, p2.market_ticker] ∧
    (mkArbSignal l1 p1 p2 s now).market_ticker = p1.market_ticker ∧
    (mkArbSignal l1 p1 p2 s now).ladder_key = l1.ladder_key ∧
    detectCrossLadderArb [overLadder, underLadder] 0 =
      [{ ts := 0, market_ticker := "OV45", type := SignalType.SUM_GT_1,
          confidence := SignalConfidence.high, magnitude := 3,
          related_tickers := ["OV45", "UN45"], severity_score := 30,
          ladder_key := "g|total|Over|total_over" }] := by
  refine ⟨?_, rfl, rfl, rfl, ?_, rfl, rfl, rfl, ?_⟩
  · unfold detectCrossLadderArb
    rw [List.mem_flatMap]
    exact exists_congr (fun pr => and_congr_right (fun _ => pairArb_mem pr.1 pr.2 now c))
  · show (s - 1) * 100 * 10 = (s - 1) * 100 * 10
    rfl
  · norm_num [detectCrossLadderArb, pairsAfter, pairArb, isOpposing, findMirror,
      mkArbSignal, overLadder, underLadder, overPoint, underPoint, List.flatMap_cons,
      List.flatMap_nil, List.find?]
    rw [decide_eq_true
      (show |(45 : ℚ) - (if LadderType.total = LadderType.spread then (-45 : ℚ) else 45)| <
        1 / 100 by
          rw [if_neg (by decide : ¬LadderType.total = LadderType.spread)]
          norm_num)]
    norm_num

end KalshiSports
